import Mathlib

set_option maxHeartbeats 1000000

namespace Craftero


/-! ## JavaScript `Map` / plain-object model

Association lists with unique keys, in insertion order; `mapSet` mirrors
`Map.prototype.set` / property assignment (overwrite in place when present,
append otherwise), `mapGet` mirrors `Map.prototype.get` and `mapDelete`
mirrors `Map.prototype.delete`. -/

/-- Association-list model of a JavaScript `Map` (or plain object) with
`String` keys. -/
abbrev JsMap (β : Type) := List (String × β)

/-- Model of `Map.prototype.get` / property read. -/
def mapGet {β : Type} (m : JsMap β) (k : String) : Option β :=
  match m with
  | [] => none
  | e :: rest => if e.1 = k then some e.2 else mapGet rest k

/-- Model of `Map.prototype.set` / property assignment: overwrite the entry in
place when the key is present, append otherwise. -/
def mapSet {β : Type} (m : JsMap β) (k : String) (v : β) : JsMap β :=
  match m with
  | [] => [(k, v)]
  | e :: rest => if e.1 = k then (k, v) :: rest else e :: mapSet rest k v

/-- Model of `Map.prototype.delete`. -/
def mapDelete {β : Type} (m : JsMap β) (k : String) : JsMap β :=
  match m with
  | [] => []
  | e :: rest => if e.1 = k then mapDelete rest k else e :: mapDelete rest k

/-! ## JavaScript string primitives used by the source

These mirror `String.prototype` methods. They are written over `List Char`
(rather than the core `String` API) so that every definition reduces inside
the kernel on concrete inputs. -/

/-- Model of `String.prototype.toLowerCase` (ASCII, which is all the source
compares). -/
def jsToLower (s : String) : String :=
  String.mk (s.toList.map Char.toLower)

/-- Model of `String.prototype.trim`. -/
def jsTrim (s : String) : String :=
  String.mk
    (((s.toList.dropWhile (fun c => c.isWhitespace)).reverse.dropWhile
      (fun c => c.isWhitespace)).reverse)

/-- Helper: Boolean prefix test on character lists. -/
def isPrefixChars : List Char → List Char → Bool
  | [], _ => true
  | _ :: _, [] => false
  | p :: ps, c :: cs => decide (p = c) && isPrefixChars ps cs

/-- Model of `String.prototype.startsWith`. -/
def jsStartsWith (s pre : String) : Bool :=
  isPrefixChars pre.toList s.toList

/-- Model of `String.prototype.slice(0, n)` / truncating take. -/
def strTake (s : String) (n : Nat) : String :=
  String.mk (s.toList.take n)

/-- Model of `String.prototype.slice(n)`. -/
def strDrop (s : String) (n : Nat) : String :=
  String.mk (s.toList.drop n)

/-- Model of `Array.prototype.join(sep)`. -/
def joinSep (sep : String) : List String → String
  | [] => ""
  | [s] => s
  | s :: rest => s ++ sep ++ joinSep sep rest

/-- Helper for `splitLinesJS`. -/
def splitLinesAux (acc : List Char) : List Char → List String
  | [] => [String.mk acc.reverse]
  | '\r' :: '\n' :: rest => String.mk acc.reverse :: splitLinesAux [] rest
  | '\n' :: rest => String.mk acc.reverse :: splitLinesAux [] rest
  | c :: rest => splitLinesAux (c :: acc) rest

/-- Model of `value.split(/\r?\n/)`. -/
def splitLinesJS (s : String) : List String :=
  splitLinesAux [] s.toList

/-- Model of `Number.parseInt(s, 10)`: skip leading whitespace, optional sign,
then the longest run of leading decimal digits; `none` models `NaN`. -/
def parseInt10 (s : String) : Option Int :=
  let cs := s.toList.dropWhile (fun c => c.isWhitespace)
  let signRest : Int × List Char :=
    match cs with
    | '-' :: r => (-1, r)
    | '+' :: r => (1, r)
    | r => (1, r)
  let ds := signRest.2.takeWhile (fun c => c.isDigit)
  if ds.isEmpty then none
  else some (signRest.1 * Int.ofNat (ds.foldl (fun a c => a * 10 + (c.toNat - 48)) 0))

/-- Helper for `strContains`: does `pat` occur as a contiguous run of `cs`? -/
def listHasInfix (pat : List Char) : List Char → Bool
  | [] => pat.isEmpty
  | c :: rest => isPrefixChars pat (c :: rest) || listHasInfix pat rest

/-- Model of `String.prototype.includes`. -/
def strContains (s pat : String) : Bool :=
  listHasInfix pat.toList s.toList

/-! ## Schema data model (`types.ts`) and runtime JS values -/

/-- Abstract JS primitive, used for option objects of unknown shape
(`optionToString` only distinguishes string, number and other). -/
inductive JsPrim where
  | pstr (s : String)
  | pnum (n : Int)
  | pother
deriving DecidableEq, Repr

/-- One entry of `CraftCollectionSchemaProperty.options`: a string, a number,
or an object whose `name ?? title ?? value ?? label` coalesced candidate is
given (already resolved, since `??` only skips null/undefined). -/
inductive OptVal where
  | ostr (s : String)
  | onum (n : Int)
  | oobj (candidate : Option JsPrim)
deriving DecidableEq, Repr

/-- `CraftCollectionSchemaProperty` from `types.ts` (`options?` modelled with
`[]` for absent). -/
structure CraftCollectionSchemaProperty where
  name : String
  key : String
  type : String
  options : List OptVal := []
deriving DecidableEq, Repr

/-- `CraftCollectionSchema` from `types.ts` (only the parts the core reads). -/
structure CraftCollectionSchema where
  properties : List CraftCollectionSchemaProperty := []
deriving DecidableEq, Repr

/-- Runtime JS value written into a Craft property map: the values the engine
can produce are strings, integers, string arrays and `{blockId, title}` link
objects. -/
inductive Value where
  | vstr (s : String)
  | vint (n : Int)
  | vlist (l : List String)
  | vlink (blockId title : String)
deriving DecidableEq, Repr

/-- Model of JS `String(value)` on the values above. -/
def jsToString (v : Value) : String :=
  match v with
  | .vstr s => s
  | .vint n => toString n
  | .vlist l => joinSep "," l
  | .vlink _ _ => "[object Object]"

/-- Property map assembled for one Craft item (`Record<string, unknown>`). -/
abbrev PropMap := JsMap Value

/-! ## Synonym resolver (`craft.ts`: `FIELD_SYNONYMS`, `normalizeName`,
`buildSchemaIndex`, `findSchemaProperty`) -/

/-- Canonical field concepts: the keys of the `FIELD_SYNONYMS` table. -/
inductive FieldConcept where
  | authors | year | journal | url | zoteroLink | dateAdded
  | publicationType | tags | abstract | citationKey | status | readingDate
deriving DecidableEq, Repr

/-- The static `FIELD_SYNONYMS` table, verbatim from the source. -/
def FIELD_SYNONYMS : FieldConcept → List String
  | .authors => ["authors", "author", "creators"]
  | .year => ["year", "publicationyear", "publication year", "publication_year",
      "pubyear"]
  | .journal => ["journal", "publication", "publisher", "journalpublisher",
      "journal/publisher"]
  | .url => ["url", "link", "doi"]
  | .zoteroLink => ["zotero link", "zotero_link", "zoterolink", "zotero uri",
      "zotero_uri"]
  | .dateAdded => ["date added", "dateadded", "date_added", "added"]
  | .publicationType => ["publication type", "publicationtype", "item type",
      "itemtype", "type"]
  | .tags => ["tags", "tag"]
  | .abstract => ["abstract", "abstractnote", "summary"]
  | .citationKey => ["citation key", "citationkey", "citekey", "citation_key"]
  | .status => ["status", "reading status", "readingstatus"]
  | .readingDate => ["reading date", "readingdate", "reading_date",
      "date read", "read date"]

/-- `normalizeName`: lowercase, then strip every character that is not a
lowercase letter or digit (the regex `/[^a-z0-9]/g`). -/
def normalizeName (value : String) : String :=
  String.mk ((jsToLower value).toList.filter
    (fun c => decide (('a' ≤ c ∧ c ≤ 'z') ∨ ('0' ≤ c ∧ c ≤ '9'))))

/-- Loop body of `buildSchemaIndex`: `if (!prop.name) continue;
index.set(normalizeName(prop.name), prop); if (prop.key)
index.set(normalizeName(prop.key), prop);`. -/
def schemaIndexInsert (index : JsMap CraftCollectionSchemaProperty)
    (prop : CraftCollectionSchemaProperty) :
    JsMap CraftCollectionSchemaProperty :=
  if prop.name = "" then index
  else
    let index := mapSet index (normalizeName prop.name) prop
    if prop.key ≠ "" then mapSet index (normalizeName prop.key) prop
    else index

/-- `buildSchemaIndex`: index every property under its normalized display name
and (when non-empty) its normalized storage key; properties without a name are
skipped entirely. -/
def buildSchemaIndex (schema : Option CraftCollectionSchema) :
    JsMap CraftCollectionSchemaProperty :=
  match schema with
  | none => []
  | some schema => schema.properties.foldl schemaIndexInsert []

/-- Specification vocabulary for the synonym resolver: property `p` is
indexable under the normalized string `n` (by its display name, or by its
non-empty storage key). -/
def nameOrKeyMatches (n : String) (p : CraftCollectionSchemaProperty) : Prop :=
  p.name ≠ "" ∧
    (normalizeName p.name = n ∨ (p.key ≠ "" ∧ normalizeName p.key = n))

instance (n : String) (p : CraftCollectionSchemaProperty) :
    Decidable (nameOrKeyMatches n p) := by
  unfold nameOrKeyMatches; infer_instance

/-- `findSchemaProperty`: first synonym, in listed order, whose normalized form
is present in the schema index. -/
def findSchemaProperty (index : JsMap CraftCollectionSchemaProperty)
    (synonyms : List String) : Option CraftCollectionSchemaProperty :=
  synonyms.findSome? (fun name => mapGet index (normalizeName name))

/-! ## Option matching and value coercion (`craft.ts`: `optionToString`,
`normalizeOptions`, `matchOption`, `buildLinkObject`, `setPropertyValue`,
`chooseStatusOption`) -/

/-- `optionToString`: a string option stands for itself, a number is rendered,
an object contributes its string-or-number candidate. -/
def optionToString (option : OptVal) : Option String :=
  match option with
  | .ostr s => some s
  | .onum n => some (toString n)
  | .oobj (some (.pstr s)) => some s
  | .oobj (some (.pnum n)) => some (toString n)
  | .oobj _ => none

/-- `normalizeOptions`: keep the truthy (non-empty) rendered options, paired
with their lowercased form (`raw` is `.1`, `normalized` is `.2`). -/
def normalizeOptions (options : List OptVal) : List (String × String) :=
  ((options.filterMap optionToString).filter (fun s => s ≠ "")).map
    (fun s => (s, jsToLower s))

/-- `matchOption`: case-insensitive exact match of `value` against the rendered
options, returning the first matching option's raw display string. -/
def matchOption (options : List OptVal) (value : String) : Option String :=
  ((normalizeOptions options).find?
    (fun option => option.2 == jsToLower value)).map (·.1)

/-- `buildLinkObject`: wrap a string value into a `{blockId, title}` object,
rendering `date://YYYY-MM-DD` references through `formatDateTitle` (modelled by
the parameter `fdt`, since the source formatting depends on `Intl` and the
current local date). -/
def buildLinkObject (fdt : String → String) (value : String) : Value :=
  if jsStartsWith value "date://" then
    .vlink value (fdt (strDrop value 7))
  else
    .vlink value value

/-- The `lowerType.includes("date")` test of `applyReadingDate`. -/
def expectsDateType (t : String) : Bool :=
  strContains (jsToLower t) "date"

/-- The object/link/reference-like type test shared by `setPropertyValue` and
`applyReadingDate`: the lowercased type contains `block`, `link`, `reference`,
`relation` or `object`. -/
def expectsObjectType (t : String) : Bool :=
  strContains (jsToLower t) "block"
    || strContains (jsToLower t) "link"
    || strContains (jsToLower t) "reference"
    || strContains (jsToLower t) "relation"
    || strContains (jsToLower t) "object"

/-- Helper for `setPropertyValue`: the early return
`typeof value === "string" && value.trim() === ""`. -/
def isBlankString (value : Value) : Bool :=
  match value with
  | .vstr s => jsTrim s == ""
  | _ => false

/-- `setPropertyValue`: type-directed write of one raw value into the property
map, verbatim from the source `switch`. -/
def setPropertyValue (fdt : String → String) (properties : PropMap)
    (prop : Option CraftCollectionSchemaProperty) (value : Option Value) :
    PropMap :=
  match prop with
  | none => properties
  | some prop =>
    match value with
    | none => properties
    | some value =>
      if isBlankString value then properties
      else
        let options := prop.options
        let expectsObject := expectsObjectType prop.type
        if prop.type = "number" then
          let parsed : Option Int :=
            match value with
            | .vint n => some n
            | v => parseInt10 (jsToString v)
          match parsed with
          | some n => mapSet properties prop.key (.vint n)
          | none => properties
        else if prop.type = "url" then
          mapSet properties prop.key (.vstr (jsToString value))
        else if prop.type = "date" then
          mapSet properties prop.key (.vstr (jsToString value))
        else if prop.type = "select" then
          if options.isEmpty then
            mapSet properties prop.key (.vstr (jsToString value))
          else
            match matchOption options (jsToString value) with
            | some m => mapSet properties prop.key (.vstr m)
            | none => mapSet properties prop.key (.vstr (jsToString value))
        else if prop.type = "multiSelect" then
          let values : List String :=
            match value with
            | .vlist l => l
            | v => [jsToString v]
          if options.isEmpty then
            let normalized := (values.map jsTrim).filter (fun s => s ≠ "")
            if normalized.isEmpty then properties
            else mapSet properties prop.key (.vlist normalized)
          else
            let matched := (values.map
              (fun val => (matchOption options val).getD (jsTrim val))).filter
              (fun s => s ≠ "")
            if matched.isEmpty then properties
            else mapSet properties prop.key (.vlist matched)
        else if prop.type = "text" ∨ prop.type = "richText" then
          mapSet properties prop.key (.vstr (jsToString value))
        else
          match value with
          | .vstr s =>
            if expectsObject then
              mapSet properties prop.key (buildLinkObject fdt s)
            else
              mapSet properties prop.key value
          | _ => mapSet properties prop.key value

/-- The `preferred` list local to `chooseStatusOption`. -/
def statusPreferred : List String :=
  ["to read", "waiting", "next up", "nextup", "backlog", "unread"]

/-- `chooseStatusOption`: pick the first of the fixed preference list that
case-insensitively matches a declared option, returning that option's raw
display string. -/
def chooseStatusOption (prop : Option CraftCollectionSchemaProperty) :
    Option String :=
  match prop with
  | none => none
  | some prop =>
    if prop.options.isEmpty then none
    else
      let preferred := statusPreferred
      let normalizedOptions := normalizeOptions prop.options
      preferred.findSome?
        (fun candidate =>
          (normalizedOptions.find? (fun option => option.2 == candidate)).map
            (·.1))

/-- `getReadingDateProperty`. -/
def getReadingDateProperty (schemaIndex : JsMap CraftCollectionSchemaProperty) :
    Option CraftCollectionSchemaProperty :=
  findSchemaProperty schemaIndex (FIELD_SYNONYMS .readingDate)

/-! ## Bibliographic item model (`types.ts`) and item normalizer
(`zotero.ts` statics, `craft.ts` helpers) -/

/-- One entry of `ZoteroItemData.creators`; absent optional string fields are
modelled as `""` (matching the `|| ""` fallbacks in the source). -/
structure Creator where
  firstName : String := ""
  lastName : String := ""
  name : String := ""
deriving DecidableEq, Repr

/-- The fields of `ZoteroItemData` read by the field-mapping core; absent
optional strings are `""` except `citationKey`, which stays an `Option`
because the source distinguishes `undefined` via `??`. -/
structure ZoteroItemData where
  itemType : String := ""
  title : String := ""
  creators : List Creator := []
  date : String := ""
  dateAdded : String := ""
  publicationTitle : String := ""
  publisher : String := ""
  institution : String := ""
  archive : String := ""
  repository : String := ""
  url : String := ""
  DOI : String := ""
  abstractNote : String := ""
  tags : List String := []
  citationKey : Option String := none
  extra : String := ""
deriving DecidableEq, Repr

/-- `ZoteroItem`: key plus data. -/
structure ZoteroItem where
  key : String
  data : ZoteroItemData
deriving DecidableEq, Repr

/-- `ZoteroClient.formatAuthors`. -/
def formatAuthors (creators : List Creator) : String :=
  if creators.isEmpty then "Unknown Author"
  else
    joinSep ", " (creators.map
      (fun creator =>
        if creator.name ≠ "" then creator.name
        else jsTrim (creator.firstName ++ " " ++ creator.lastName)))

/-- Helper for `extractYear`: first position where four consecutive decimal
digits occur (the regex `/\d\x7b4\x7d/`). -/
def firstFourDigitRun : List Char → Option String
  | c1 :: c2 :: c3 :: c4 :: rest =>
    if c1.isDigit && c2.isDigit && c3.isDigit && c4.isDigit then
      some (String.mk [c1, c2, c3, c4])
    else
      firstFourDigitRun (c2 :: c3 :: c4 :: rest)
  | _ => none

/-- `ZoteroClient.extractYear`: first 4-digit run, else the raw date string,
else `""` when absent. -/
def extractYear (dateString : String) : String :=
  if dateString = "" then ""
  else
    match firstFourDigitRun dateString.toList with
    | some y => y
    | none => dateString

/-- `ZoteroClient.formatItemType`: insert a space before each ASCII capital,
uppercase the first character, trim. -/
def formatItemType (type_ : String) : String :=
  if type_ = "" then ""
  else
    let spaced := type_.toList.flatMap
      (fun c => if c.isUpper then [' ', c] else [c])
    let upped : List Char :=
      match spaced with
      | [] => []
      | c :: rest => c.toUpper :: rest
    jsTrim (String.mk upped)

/-- Helper for `normalizeDateOnly`: try to read `YYYY-MM-DD` at the head. -/
def isoDateAtHead (cs : List Char) : Option String :=
  match cs with
  | y1 :: y2 :: y3 :: y4 :: '-' :: m1 :: m2 :: '-' :: d1 :: d2 :: _ =>
    if y1.isDigit && y2.isDigit && y3.isDigit && y4.isDigit && m1.isDigit
        && m2.isDigit && d1.isDigit && d2.isDigit then
      some (String.mk [y1, y2, y3, y4, '-', m1, m2, '-', d1, d2])
    else none
  | _ => none

/-- Helper for `normalizeDateOnly`: first `YYYY-MM-DD` occurrence (the regex
`/\d\x7b4\x7d-\d\x7b2\x7d-\d\x7b2\x7d/`). -/
def firstIsoDate : List Char → Option String
  | [] => none
  | c :: rest =>
    match isoDateAtHead (c :: rest) with
    | some s => some s
    | none => firstIsoDate rest

/-- `normalizeDateOnly`: extract a literal `YYYY-MM-DD` substring, else fall
back to `new Date(value)` reformatted — the fallback is modelled by the
parameter `dp` because JS `Date` parsing of free-form strings is
implementation-defined (`none` models an invalid date). -/
def normalizeDateOnly (dp : String → Option String) (value : String) : String :=
  if value = "" then ""
  else
    match firstIsoDate value.toList with
    | some d => d
    | none =>
      match dp value with
      | some formatted => formatted
      | none => ""

/-- Helper for `extractCitationKeyFromExtra`: case-insensitively strip `pat`
from the head of `cs`. -/
def stripHeadCI (pat : List Char) (cs : List Char) : Option (List Char) :=
  match pat, cs with
  | [], cs => some cs
  | _ :: _, [] => none
  | p :: ps, c :: rest =>
    if p.toLower = c.toLower then stripHeadCI ps rest else none

/-- Helper for `extractCitationKeyFromExtra`: match one trimmed line against
`/^citation\s*key\s*:\s*(.+)$/i` and return the trimmed capture. -/
def matchCitationLine (line : String) : Option String :=
  let trimmed := jsTrim line
  match stripHeadCI "citation".toList trimmed.toList with
  | none => none
  | some r1 =>
    let r1 := r1.dropWhile (fun c => c.isWhitespace)
    match stripHeadCI "key".toList r1 with
    | none => none
    | some r2 =>
      let r2 := r2.dropWhile (fun c => c.isWhitespace)
      match r2 with
      | ':' :: rest =>
        if rest.isEmpty then none
        else some (jsTrim (String.mk rest))
      | _ => none

/-- `extractCitationKeyFromExtra`: scan the lines of the `extra` free-text
field for the first `Citation Key: <value>` line. -/
def extractCitationKeyFromExtra (extra : String) : Option String :=
  if extra = "" then none
  else
    (splitLinesJS extra).findSome? matchCitationLine

/-- `resolveCitationKey` (the bibtex cache only memoizes this computation, so
it is modelled as the pure result): a truthy citation key from `extra`. -/
def resolveCitationKey (item : ZoteroItem) : Option String :=
  match extractCitationKeyFromExtra item.data.extra with
  | some k => if k = "" then none else some k
  | none => none

/-- `getJournalPublisher`: publication title for ordinary types; for book-like
types, title and first non-empty publisher-ish field joined by the source's
literal two-character separator (the source file contains the UTF-8
double-encoded bytes `Â·` rather than a lone middle dot). -/
def getJournalPublisher (item : ZoteroItem) : String :=
  let publicationTitle := item.data.publicationTitle
  let publisher :=
    if item.data.publisher ≠ "" then item.data.publisher
    else if item.data.institution ≠ "" then item.data.institution
    else if item.data.archive ≠ "" then item.data.archive
    else item.data.repository
  let itemType := jsToLower item.data.itemType
  let isBookOrPreprint :=
    ["book", "booksection", "bookchapter", "bookpart", "preprint"].contains
      itemType
  if !isBookOrPreprint then publicationTitle
  else if publicationTitle ≠ "" ∧ publisher ≠ "" then
    publicationTitle ++ " Â· " ++ publisher
  else if publicationTitle ≠ "" then publicationTitle
  else publisher

/-- `truncate` from `zotero.ts`. -/
def truncate (value : String) (maxLength : Nat) : String :=
  if value.toList.length ≤ maxLength then value
  else (strTake value (maxLength - 1)) ++ "…"

/-- The first ten writes of `buildCraftProperties` (everything before the
status write), split out so the status step can be reasoned about on its
own. -/
def buildCraftPropertiesPreStatus (dp : String → Option String)
    (fdt : String → String) (item : ZoteroItem)
    (schemaIndex : JsMap CraftCollectionSchemaProperty)
    (overridesCitationKey : Option String) : PropMap :=
  let creators := formatAuthors item.data.creators
  let year := extractYear item.data.date
  let journal := getJournalPublisher item
  let url := if item.data.url ≠ "" then item.data.url else item.data.DOI
  let dateAdded := normalizeDateOnly dp item.data.dateAdded
  let itemType := formatItemType item.data.itemType
  let tagNames := (item.data.tags.map jsTrim).filter (fun t => t ≠ "")
  let zoteroLink := "zotero://select/library/items/" ++ item.key
  let citationKey : Option String :=
    match overridesCitationKey with
    | some k => some k
    | none => item.data.citationKey
  let abstract := item.data.abstractNote
  let properties : PropMap := []
  let properties := setPropertyValue fdt properties
    (findSchemaProperty schemaIndex (FIELD_SYNONYMS .authors))
    (some (.vstr creators))
  let properties := setPropertyValue fdt properties
    (findSchemaProperty schemaIndex (FIELD_SYNONYMS .year))
    (some (.vstr year))
  let properties := setPropertyValue fdt properties
    (findSchemaProperty schemaIndex (FIELD_SYNONYMS .journal))
    (some (.vstr journal))
  let properties := setPropertyValue fdt properties
    (findSchemaProperty schemaIndex (FIELD_SYNONYMS .url))
    (some (.vstr url))
  let properties := setPropertyValue fdt properties
    (findSchemaProperty schemaIndex (FIELD_SYNONYMS .zoteroLink))
    (some (.vstr zoteroLink))
  let properties := setPropertyValue fdt properties
    (findSchemaProperty schemaIndex (FIELD_SYNONYMS .dateAdded))
    (some (.vstr dateAdded))
  let properties := setPropertyValue fdt properties
    (findSchemaProperty schemaIndex (FIELD_SYNONYMS .publicationType))
    (some (.vstr itemType))
  let properties := setPropertyValue fdt properties
    (findSchemaProperty schemaIndex (FIELD_SYNONYMS .citationKey))
    (citationKey.map .vstr)
  let properties := setPropertyValue fdt properties
    (findSchemaProperty schemaIndex (FIELD_SYNONYMS .abstract))
    (some (.vstr abstract))
  setPropertyValue fdt properties
    (findSchemaProperty schemaIndex (FIELD_SYNONYMS .tags))
    (some (.vlist tagNames))

/-- `buildCraftProperties`: normalize the item into canonical attributes,
coerce each one through the synonym resolver into the property map, then
append the default status write. -/
def buildCraftProperties (dp : String → Option String) (fdt : String → String)
    (item : ZoteroItem) (schemaIndex : JsMap CraftCollectionSchemaProperty)
    (overridesCitationKey : Option String) : PropMap :=
  let properties :=
    buildCraftPropertiesPreStatus dp fdt item schemaIndex overridesCitationKey
  let statusProp := findSchemaProperty schemaIndex (FIELD_SYNONYMS .status)
  let statusValue := chooseStatusOption statusProp
  setPropertyValue fdt properties statusProp (statusValue.map .vstr)

/-- `getTagsProperty` from `zotero.ts`: the schema entry under the normalized
name `tags` or, failing that, `tag`. -/
def getTagsProperty (schemaIndex : JsMap CraftCollectionSchemaProperty) :
    Option CraftCollectionSchemaProperty :=
  match mapGet schemaIndex (normalizeName "tags") with
  | some p => some p
  | none => mapGet schemaIndex (normalizeName "tag")

/-! ## Reconciliation engine (`zotero.ts`: `syncItems`, `applyReadingDate`,
`deleteExistingItem`)

The React/Raycast UI state (toasts, list rendering, deep links) is not part of
the engine and not modelled. Remote calls are modelled by an `Env` of oracles:
`notes` and `write` give, per item position in the batch, the result of the
note fetch and of the create/update call (`Except.error` models a thrown
exception, carrying the error message); `daily` gives, per call count, the
result of `craftClient.getDailyNoteId`. Mutable refs (`existingItemsRef`,
`dailyNoteIdRef`, `readingDateWarningRef`) become fields of `EngineState`;
`outcomes` and `writes` are observers recording the per-item log entries and
the issued write calls. -/

/-- `SyncStatus` from `zotero.ts`. -/
inductive SyncStatus where
  | created | updated | deleted | skipped | error
deriving DecidableEq, Repr

/-- `SyncLog` (the presentation-only `payload`, `url`, `zoteroLink` fields are
omitted). -/
structure SyncLog where
  title : String
  status : SyncStatus
  details : Option String := none
  errorDetails : Option String := none
deriving DecidableEq, Repr

/-- Environment of remote-call results for one engine run. -/
structure Env where
  notes : Nat → Except String (List String)
  write : Nat → Except String String
  daily : Nat → Except String String
  today : String
  hasCraftClient : Bool := true

/-- Mutable engine state: the identity index (`existingItemsRef`), the
reading-date memo and warning latch, the log, and the observers. -/
structure EngineState where
  index : JsMap String := []
  dailyNoteId : Option String := none
  readingDateWarning : Bool := false
  dailyCalls : Nat := 0
  log : List SyncLog := []
  outcomes : List SyncLog := []
  writes : List (Bool × PropMap) := []

/-- The deterministic external identity link
`zotero://select/library/items/<key>`. -/
def zoteroUriOfKey (key : String) : String :=
  "zotero://select/library/items/" ++ key

/-- The per-item display title: the trimmed title, with `Untitled` as the
falsy fallback. -/
def titleOf (item : ZoteroItem) : String :=
  if jsTrim item.data.title = "" then "Untitled" else jsTrim item.data.title

/-- The `allowNewSelectOptions` expression of `syncItems`: at least one
non-empty tag, and either no resolved tags field or a tags field whose
lowercased type is `select` or `multiselect`. -/
def allowNewSelectOptionsFor (schemaIndex : JsMap CraftCollectionSchemaProperty)
    (item : ZoteroItem) : Bool :=
  let tagNames := (item.data.tags.map jsTrim).filter (fun t => t ≠ "")
  !tagNames.isEmpty &&
    (match getTagsProperty schemaIndex with
     | none => true
     | some p => ["select", "multiselect"].contains (jsToLower p.type))

/-- `applyReadingDate`: write today's date directly for date-like fields; for
object/link-like fields resolve (and memoize) the daily-note id, logging the
failure warning at most once. -/
def applyReadingDate (fdt : String → String) (env : Env)
    (schemaIndex : JsMap CraftCollectionSchemaProperty) (properties : PropMap)
    (st : EngineState) : PropMap × EngineState :=
  match getReadingDateProperty schemaIndex with
  | none => (properties, st)
  | some readingDateProp =>
    let dateString := env.today
    let expectsDate := expectsDateType readingDateProp.type
    let expectsObject := expectsObjectType readingDateProp.type
    if expectsDate || !expectsObject then
      (mapSet properties readingDateProp.key (.vstr dateString), st)
    else if !env.hasCraftClient then
      if !st.readingDateWarning then
        (properties,
          { st with
            readingDateWarning := true
            log := st.log ++ [⟨"Reading Date", .skipped,
              some "Craft API not configured; skipping Reading Date link.",
              none⟩] })
      else (properties, st)
    else
      match st.dailyNoteId with
      | some dailyNoteId =>
        (mapSet properties readingDateProp.key
          (.vlink dailyNoteId (fdt dateString)), st)
      | none =>
        match env.daily st.dailyCalls with
        | .ok dailyNoteId =>
          (mapSet properties readingDateProp.key
            (.vlink dailyNoteId (fdt dateString)),
            { st with
              dailyNoteId := some dailyNoteId
              dailyCalls := st.dailyCalls + 1 })
        | .error message =>
          if !st.readingDateWarning then
            (properties,
              { st with
                dailyCalls := st.dailyCalls + 1
                readingDateWarning := true
                log := st.log ++ [⟨"Reading Date", .skipped,
                  some ("Failed to resolve daily note; skipping Reading Date link. "
                    ++ message), none⟩] })
          else (properties, { st with dailyCalls := st.dailyCalls + 1 })

/-- Helper: push one per-item log entry (both into the log and the per-item
outcome observer). -/
def appendOutcome (st : EngineState) (entry : SyncLog) : EngineState :=
  { st with log := st.log ++ [entry], outcomes := st.outcomes ++ [entry] }

/-- Helper: the `catch` branch of the per-item loop. -/
def recordItemError (st : EngineState) (title message : String) : EngineState :=
  appendOutcome st
    ⟨title, .error, some (truncate message 140), some message⟩

/-- One iteration of the per-item loop of `syncItems`: resolve, build
properties, apply the reading date, fetch notes, then create or update
according to the identity index, isolating any failure as a per-item `error`
outcome. -/
def syncStep (dp : String → Option String) (fdt : String → String) (env : Env)
    (schemaIndex : JsMap CraftCollectionSchemaProperty) (pos : Nat)
    (item : ZoteroItem) (st : EngineState) : EngineState :=
  let title := titleOf item
  let zoteroUri := zoteroUriOfKey item.key
  let existingId := mapGet st.index zoteroUri
  let citationKeyOverride := resolveCitationKey item
  let properties :=
    buildCraftProperties dp fdt item schemaIndex citationKeyOverride
  let allowNewSelectOptions := allowNewSelectOptionsFor schemaIndex item
  let stepRd := applyReadingDate fdt env schemaIndex properties st
  let properties := stepRd.1
  let st := stepRd.2
  match env.notes pos with
  | .error message => recordItemError st title message
  | .ok _blocks =>
    match existingId with
    | some _ =>
      let st := { st with
        writes := st.writes ++ [(allowNewSelectOptions, properties)] }
      match env.write pos with
      | .ok _ => appendOutcome st ⟨title, .updated, none, none⟩
      | .error message => recordItemError st title message
    | none =>
      let st := { st with
        writes := st.writes ++ [(allowNewSelectOptions, properties)] }
      match env.write pos with
      | .ok newId =>
        let st := appendOutcome st ⟨title, .created, none, none⟩
        { st with index := mapSet st.index zoteroUri newId }
      | .error message => recordItemError st title message

/-- The per-item loop of `syncItems` over a batch, threading the engine state
strictly sequentially. -/
def syncRun (dp : String → Option String) (fdt : String → String) (env : Env)
    (schemaIndex : JsMap CraftCollectionSchemaProperty) :
    Nat → List ZoteroItem → EngineState → EngineState
  | _, [], st => st
  | pos, item :: rest, st =>
    syncRun dp fdt env schemaIndex (pos + 1) rest
      (syncStep dp fdt env schemaIndex pos item st)

/-- `deleteExistingItem` (after user confirmation): issue the delete call;
on success drop the identity-index entry and log `deleted`, on failure leave
the index unchanged and log `error`. The second component records the issued
remote delete calls. -/
def deleteExistingItem (confirmed : Bool)
    (deleteResult : Except String Unit) (item : ZoteroItem) (itemId : String)
    (st : EngineState) : EngineState × List (List String) :=
  if !confirmed then (st, [])
  else
    let title := titleOf item
    let zoteroUri := zoteroUriOfKey item.key
    match deleteResult with
    | .ok _ =>
      ({ st with
          index := mapDelete st.index zoteroUri
          log := st.log ++ [⟨title, .deleted, some "Deleted from Craft.",
            none⟩] },
        [[itemId]])
    | .error message =>
      ({ st with
          log := st.log ++ [⟨title, .error, some (truncate message 140),
            some message⟩] },
        [[itemId]])

/-- Observer: the single per-item log entry produced by `syncStep`. -/
def stepOutcome (env : Env) (pos : Nat) (item : ZoteroItem)
    (st : EngineState) : SyncLog :=
  match env.notes pos with
  | .error m => ⟨titleOf item, .error, some (truncate m 140), some m⟩
  | .ok _ =>
    match env.write pos with
    | .error m => ⟨titleOf item, .error, some (truncate m 140), some m⟩
    | .ok _ =>
      match mapGet st.index (zoteroUriOfKey item.key) with
      | some _ => ⟨titleOf item, .updated, none, none⟩
      | none => ⟨titleOf item, .created, none, none⟩

/-- Observer: the identity index after `syncStep`. -/
def stepIndex (env : Env) (pos : Nat) (item : ZoteroItem)
    (st : EngineState) : JsMap String :=
  match env.notes pos with
  | .error _ => st.index
  | .ok _ =>
    match mapGet st.index (zoteroUriOfKey item.key), env.write pos with
    | none, .ok newId => mapSet st.index (zoteroUriOfKey item.key) newId
    | _, _ => st.index

/-- Per-item failure of the remote environment. -/
def itemFails (env : Env) (p : Nat) : Prop :=
  (∃ m, env.notes p = .error m) ∨ (∃ m, env.write p = .error m)

instance (env : Env) (p : Nat) : Decidable (itemFails env p) := by
  unfold itemFails
  rcases env.notes p <;> rcases env.write p <;>
    first
      | exact .isTrue (Or.inl ⟨_, rfl⟩)
      | exact .isTrue (Or.inr ⟨_, rfl⟩)
      | exact .isFalse (by rintro (⟨m, hm⟩ | ⟨m, hm⟩) <;> cases hm)

/-! ## Concrete sample inputs used by witnesses and counterexamples -/

/-- Trivial stand-in for the implementation-defined JS `Date` parse. -/
def dpNone : String → Option String := fun _ => none

/-- Trivial stand-in for `formatDateTitle`. -/
def fdtId : String → String := fun s => s

/-- Schema field named `Author`. -/
def sampleAuthorProp : CraftCollectionSchemaProperty :=
  { name := "Author", key := "f1", type := "text" }

/-- Schema field with odd casing and punctuation that still normalizes to the
synonym `author`. -/
def sampleAuthorOddProp : CraftCollectionSchemaProperty :=
  { name := "A_u-thOr!", key := "f2", type := "text" }

/-- Schema field named `author_name`, which normalizes to `authorname` — not a
listed synonym. -/
def sampleAuthorNameProp : CraftCollectionSchemaProperty :=
  { name := "author_name", key := "f3", type := "text" }

/-- Book item with empty publication title and publisher `Acme Press`. -/
def sampleBookNoTitle : ZoteroItem :=
  { key := "B1",
    data := { itemType := "book", publicationTitle := "",
              publisher := "Acme Press" } }

/-- Book item with publication title `Vol 2` and publisher `Acme Press`. -/
def sampleBookVol2 : ZoteroItem :=
  { key := "B2",
    data := { itemType := "book", publicationTitle := "Vol 2",
              publisher := "Acme Press" } }

/-- Schema field of declared type `number`. -/
def sampleNumberProp : CraftCollectionSchemaProperty :=
  { name := "Year", key := "y", type := "number" }

/-- Item with every optional field absent. -/
def sampleMinimalItem : ZoteroItem :=
  { key := "M", data := {} }

/-- Status field of declared type `number` with a matching option — the
coercer drops the chosen status string on such a field. -/
def sampleStatusNumberProp : CraftCollectionSchemaProperty :=
  { name := "Status", key := "st", type := "number",
    options := [.ostr "To Read"] }

/-- Schema index containing only the number-typed status field. -/
def sampleStatusNumberIndex : JsMap CraftCollectionSchemaProperty :=
  buildSchemaIndex (some ⟨[sampleStatusNumberProp]⟩)

/-- Status field of declared type `select`. -/
def sampleStatusSelectProp : CraftCollectionSchemaProperty :=
  { name := "Status", key := "st2", type := "select",
    options := [.ostr "Done", .ostr "To Read"] }

/-- Schema index containing only the select-typed status field. -/
def sampleStatusSelectIndex : JsMap CraftCollectionSchemaProperty :=
  buildSchemaIndex (some ⟨[sampleStatusSelectProp]⟩)

/-- Schema index containing only the `Author` field. -/
def sampleAuthorIndex : JsMap CraftCollectionSchemaProperty :=
  buildSchemaIndex (some ⟨[sampleAuthorProp]⟩)

/-- Environment where every remote call succeeds. -/
def envAllOk : Env :=
  { notes := fun _ => .ok [], write := fun p => .ok ("id" ++ toString p),
    daily := fun _ => .ok "dn", today := "2026-01-01" }

/-- Environment where only the second item's write throws. -/
def envFailSecond : Env :=
  { envAllOk with
    write := fun p => if p = 1 then .error "boom"
      else .ok ("id" ++ toString p) }

/-- Environment whose first daily-note resolution fails and whose second
succeeds. -/
def envDailyFlaky : Env :=
  { envAllOk with
    daily := fun n => if n = 0 then .error "offline" else .ok "note1" }

/-- Environment whose daily-note resolution always fails. -/
def envDailyDown : Env :=
  { envAllOk with daily := fun _ => .error "offline" }

/-- Plain item with key `A`. -/
def sampleItemA : ZoteroItem := { key := "A", data := { title := "T1" } }

/-- Plain item with key `B`. -/
def sampleItemB : ZoteroItem := { key := "B", data := { title := "T2" } }

/-- Plain item with key `C`. -/
def sampleItemC : ZoteroItem := { key := "C", data := { title := "T3" } }

/-- The three-item batch of the partial-failure example. -/
def sampleThreeItems : List ZoteroItem :=
  [sampleItemA, sampleItemB, sampleItemC]

/-- A two-item batch. -/
def sampleTwoItems : List ZoteroItem := [sampleItemA, sampleItemB]

/-- Item carrying one tag. -/
def sampleTaggedItem : ZoteroItem :=
  { key := "T", data := { title := "Tagged", tags := ["alpha"] } }

/-- Reading-date schema field of an object/link-like declared type. -/
def sampleReadingDateProp : CraftCollectionSchemaProperty :=
  { name := "Reading Date", key := "rd", type := "link" }

/-- Schema index containing only the link-typed reading-date field. -/
def sampleRdIndex : JsMap CraftCollectionSchemaProperty :=
  buildSchemaIndex (some ⟨[sampleReadingDateProp]⟩)

/-- Engine state whose identity index already holds item `A`. -/
def sampleIndexedState : EngineState :=
  { index := [(zoteroUriOfKey "A", "id7")] }

theorem mapGet_mapSet {β : Type} (m : JsMap β) (k k' : String) (v : β) :
    mapGet (mapSet m k v) k' = if k' = k then some v else mapGet m k' := by
  induction m with
  | nil =>
    by_cases hk : k' = k
    · simp [mapGet, mapSet, hk]
    · simp [mapGet, mapSet, hk, Ne.symm hk]
  | cons e rest ih =>
    by_cases he : e.1 = k
    · by_cases hk : k' = k
      · simp [mapGet, mapSet, he, hk]
      · have hke : ¬ (k = k') := Ne.symm hk
        have hek' : ¬ (e.1 = k') := fun hh => hke (he ▸ hh)
        simp [mapGet, mapSet, he, hk, hke, hek']
    · by_cases hek : e.1 = k'
      · have hk : ¬ (k' = k) := fun hh => he (hek.trans hh)
        simp [mapGet, mapSet, he, hek, hk]
      · simp [mapGet, mapSet, he, hek, ih]

theorem mapGet_mapSet_self {β : Type} (m : JsMap β) (k : String) (v : β) :
    mapGet (mapSet m k v) k = some v := by
  rw [mapGet_mapSet, if_pos rfl]

theorem mapGet_mapSet_ne {β : Type} (m : JsMap β) (k k' : String) (v : β)
    (h : k' ≠ k) : mapGet (mapSet m k v) k' = mapGet m k' := by
  rw [mapGet_mapSet, if_neg h]

theorem mapGet_mapDelete {β : Type} (m : JsMap β) (k k' : String) :
    mapGet (mapDelete m k) k' = if k' = k then none else mapGet m k' := by
  induction m with
  | nil => by_cases hk : k' = k <;> simp [mapGet, mapDelete, hk]
  | cons e rest ih =>
    by_cases he : e.1 = k
    · by_cases hk : k' = k
      · subst hk
        simp only [mapDelete, he, if_true, ih, if_pos rfl]
      · have hek' : ¬ (e.1 = k') := fun hh => hk ((he ▸ hh : k = k')).symm
        simp [mapGet, mapDelete, he, hk, hek', Ne.symm hk, ih]
    · by_cases hek : e.1 = k'
      · have hk : ¬ (k' = k) := fun hh => he (hek.trans hh)
        simp [mapGet, mapDelete, he, hek, hk]
      · simp [mapGet, mapDelete, he, hek, ih]

theorem mapGet_mem {β : Type} {m : JsMap β} {k : String} {v : β}
    (h : mapGet m k = some v) : (k, v) ∈ m := by
  induction m with
  | nil => simp [mapGet] at h
  | cons e rest ih =>
    by_cases he : e.1 = k
    · simp only [mapGet, he, if_true] at h
      injection h with h2
      obtain ⟨e1, e2⟩ := e
      simp only at he h2
      rw [← he, ← h2]
      exact List.mem_cons_self _ _
    · simp only [mapGet, he, if_false] at h
      exact List.mem_cons_of_mem _ (ih h)


/-! ## Lemmas about the schema index and the synonym resolver -/

theorem isSome_mapGet_mapSet {β : Type} (m : JsMap β) (k n : String) (v : β)
    (h : (mapGet m n).isSome) : (mapGet (mapSet m k v) n).isSome := by
  rw [mapGet_mapSet]
  split
  · rfl
  · exact h

theorem isSome_mapGet_schemaIndexInsert
    (idx : JsMap CraftCollectionSchemaProperty)
    (prop : CraftCollectionSchemaProperty) (n : String)
    (h : (mapGet idx n).isSome) :
    (mapGet (schemaIndexInsert idx prop) n).isSome := by
  unfold schemaIndexInsert
  split
  · exact h
  · dsimp only
    split
    · exact isSome_mapGet_mapSet _ _ _ _ (isSome_mapGet_mapSet _ _ _ _ h)
    · exact isSome_mapGet_mapSet _ _ _ _ h

theorem isSome_mapGet_schemaIndexInsert_of_matches
    (idx : JsMap CraftCollectionSchemaProperty)
    (prop : CraftCollectionSchemaProperty) (n : String)
    (h : nameOrKeyMatches n prop) :
    (mapGet (schemaIndexInsert idx prop) n).isSome := by
  obtain ⟨hn, hmatch⟩ := h
  unfold schemaIndexInsert
  rw [if_neg hn]
  dsimp only
  rcases hmatch with hname | ⟨hk, hkey⟩
  · split
    · apply isSome_mapGet_mapSet
      rw [← hname, mapGet_mapSet_self]
      rfl
    · rw [← hname, mapGet_mapSet_self]
      rfl
  · rw [if_pos hk, ← hkey, mapGet_mapSet_self]
    rfl

theorem mapGet_schemaIndexInsert_some
    (idx : JsMap CraftCollectionSchemaProperty)
    (prop p : CraftCollectionSchemaProperty) (n : String)
    (h : mapGet (schemaIndexInsert idx prop) n = some p) :
    mapGet idx n = some p ∨ (p = prop ∧ nameOrKeyMatches n prop) := by
  unfold schemaIndexInsert at h
  by_cases hn : prop.name = ""
  · rw [if_pos hn] at h
    exact Or.inl h
  · rw [if_neg hn] at h
    dsimp only at h
    by_cases hk : prop.key ≠ ""
    · rw [if_pos hk, mapGet_mapSet] at h
      by_cases hnk : n = normalizeName prop.key
      · rw [if_pos hnk] at h
        injection h with h
        exact Or.inr ⟨h.symm, hn, Or.inr ⟨hk, hnk.symm⟩⟩
      · rw [if_neg hnk, mapGet_mapSet] at h
        by_cases hnn : n = normalizeName prop.name
        · rw [if_pos hnn] at h
          injection h with h
          exact Or.inr ⟨h.symm, hn, Or.inl hnn.symm⟩
        · rw [if_neg hnn] at h
          exact Or.inl h
    · rw [if_neg hk, mapGet_mapSet] at h
      by_cases hnn : n = normalizeName prop.name
      · rw [if_pos hnn] at h
        injection h with h
        exact Or.inr ⟨h.symm, hn, Or.inl hnn.symm⟩
      · rw [if_neg hnn] at h
        exact Or.inl h

theorem foldl_schemaIndexInsert_some
    (props : List CraftCollectionSchemaProperty) :
    ∀ (idx : JsMap CraftCollectionSchemaProperty) (n : String)
      (p : CraftCollectionSchemaProperty),
      mapGet (props.foldl schemaIndexInsert idx) n = some p →
      mapGet idx n = some p ∨ (p ∈ props ∧ nameOrKeyMatches n p) := by
  induction props with
  | nil => intro idx n p h; exact Or.inl h
  | cons q rest ih =>
    intro idx n p h
    rw [List.foldl_cons] at h
    rcases ih _ _ _ h with h' | ⟨hmem, hm⟩
    · rcases mapGet_schemaIndexInsert_some _ _ _ _ h' with h'' | ⟨hpq, hm⟩
      · exact Or.inl h''
      · exact Or.inr ⟨by rw [hpq]; exact List.mem_cons_self _ _, hpq ▸ hm⟩
    · exact Or.inr ⟨List.mem_cons_of_mem _ hmem, hm⟩

theorem foldl_schemaIndexInsert_isSome
    (props : List CraftCollectionSchemaProperty) :
    ∀ (idx : JsMap CraftCollectionSchemaProperty) (n : String),
      ((mapGet idx n).isSome ∨ ∃ p ∈ props, nameOrKeyMatches n p) →
      (mapGet (props.foldl schemaIndexInsert idx) n).isSome := by
  induction props with
  | nil =>
    intro idx n h
    rcases h with h | ⟨p, hp, _⟩
    · exact h
    · exact absurd hp (List.not_mem_nil p)
  | cons q rest ih =>
    intro idx n h
    rw [List.foldl_cons]
    rcases h with h | ⟨p, hp, hm⟩
    · exact ih _ _ (Or.inl (isSome_mapGet_schemaIndexInsert _ _ _ h))
    · rcases List.mem_cons.mp hp with rfl | hp'
      · exact ih _ _
          (Or.inl (isSome_mapGet_schemaIndexInsert_of_matches _ _ _ hm))
      · exact ih _ _ (Or.inr ⟨p, hp', hm⟩)

theorem buildSchemaIndex_some (props : List CraftCollectionSchemaProperty)
    (n : String) (p : CraftCollectionSchemaProperty)
    (h : mapGet (buildSchemaIndex (some ⟨props⟩)) n = some p) :
    p ∈ props ∧ nameOrKeyMatches n p := by
  rcases foldl_schemaIndexInsert_some props [] n p h with h' | h'
  · exact absurd h' (by simp [mapGet])
  · exact h'

theorem buildSchemaIndex_none_iff (props : List CraftCollectionSchemaProperty)
    (n : String) :
    mapGet (buildSchemaIndex (some ⟨props⟩)) n = none ↔
      ∀ p ∈ props, ¬ nameOrKeyMatches n p := by
  constructor
  · intro h p hp hm
    have := foldl_schemaIndexInsert_isSome props [] n (Or.inr ⟨p, hp, hm⟩)
    rw [show (buildSchemaIndex (some ⟨props⟩)) = props.foldl schemaIndexInsert []
      from rfl] at h
    rw [h] at this
    exact absurd this (by simp)
  · intro h
    cases hg : mapGet (buildSchemaIndex (some ⟨props⟩)) n with
    | none => rfl
    | some p =>
      obtain ⟨hp, hm⟩ := buildSchemaIndex_some props n p hg
      exact absurd hm (h p hp)

theorem findSchemaProperty_none_iff
    (idx : JsMap CraftCollectionSchemaProperty) (synonyms : List String) :
    findSchemaProperty idx synonyms = none ↔
      ∀ s ∈ synonyms, mapGet idx (normalizeName s) = none := by
  unfold findSchemaProperty
  exact List.findSome?_eq_none_iff

theorem findSchemaProperty_some
    (idx : JsMap CraftCollectionSchemaProperty) (synonyms : List String)
    (p : CraftCollectionSchemaProperty)
    (h : findSchemaProperty idx synonyms = some p) :
    ∃ l₁ s l₂, synonyms = l₁ ++ s :: l₂ ∧
      mapGet idx (normalizeName s) = some p ∧
      ∀ s' ∈ l₁, mapGet idx (normalizeName s') = none := by
  unfold findSchemaProperty at h
  obtain ⟨l₁, s, l₂, hdecomp, hs, hbefore⟩ := List.findSome?_eq_some_iff.mp h
  exact ⟨l₁, s, l₂, hdecomp, hs, hbefore⟩


/-! ## Claim C3: synonym resolution -/

/-- C3: for every schema index and every synonym list, `findSchemaProperty`
returns `none` exactly when no property's normalized display name or storage
key equals a normalized synonym, and otherwise returns a property matching the
first synonym (in listed priority order) that any property matches; in
particular, for concept `authors` a field named `Author` is found regardless
of case or internal punctuation, while the non-listed variant `author_name`
is not found. -/
theorem synonymResolution_firstMatch :
    (∀ (props : List CraftCollectionSchemaProperty) (synonyms : List String),
      (findSchemaProperty (buildSchemaIndex (some ⟨props⟩)) synonyms = none ↔
        ∀ s ∈ synonyms, ∀ p ∈ props, ¬ nameOrKeyMatches (normalizeName s) p)
      ∧ (∀ p,
          findSchemaProperty (buildSchemaIndex (some ⟨props⟩)) synonyms
              = some p →
          p ∈ props ∧ ∃ l₁ s l₂, synonyms = l₁ ++ s :: l₂ ∧
            nameOrKeyMatches (normalizeName s) p ∧
            ∀ s' ∈ l₁, ∀ q ∈ props, ¬ nameOrKeyMatches (normalizeName s') q))
    ∧ findSchemaProperty (buildSchemaIndex (some ⟨[sampleAuthorProp]⟩))
        (FIELD_SYNONYMS .authors) = some sampleAuthorProp
    ∧ findSchemaProperty (buildSchemaIndex (some ⟨[sampleAuthorOddProp]⟩))
        (FIELD_SYNONYMS .authors) = some sampleAuthorOddProp
    ∧ findSchemaProperty (buildSchemaIndex (some ⟨[sampleAuthorNameProp]⟩))
        (FIELD_SYNONYMS .authors) = none := by
  refine ⟨fun props synonyms => ⟨?_, ?_⟩, by decide, by decide, by decide⟩
  · rw [findSchemaProperty_none_iff]
    constructor
    · intro h s hs p hp hm
      have hnone := h s hs
      rw [buildSchemaIndex_none_iff] at hnone
      exact hnone p hp hm
    · intro h s hs
      rw [buildSchemaIndex_none_iff]
      exact fun p hp => h s hs p hp
  · intro p h
    obtain ⟨l₁, s, l₂, hdecomp, hs, hbefore⟩ :=
      findSchemaProperty_some _ _ _ h
    obtain ⟨hmem, hm⟩ := buildSchemaIndex_some _ _ _ hs
    refine ⟨hmem, l₁, s, l₂, hdecomp, hm, ?_⟩
    intro s' hs' q hq hmq
    have := hbefore s' hs'
    rw [buildSchemaIndex_none_iff] at this
    exact this q hq hmq

/-- Witness for C3: instantiates the general resolver characterization at the
concrete one-field schema. -/
theorem synonymResolution_firstMatch_witness :
    sampleAuthorProp ∈ [sampleAuthorProp] ∧
      ∃ l₁ s l₂, FIELD_SYNONYMS .authors = l₁ ++ s :: l₂ ∧
        nameOrKeyMatches (normalizeName s) sampleAuthorProp ∧
        ∀ s' ∈ l₁, ∀ q ∈ [sampleAuthorProp],
          ¬ nameOrKeyMatches (normalizeName s') q :=
  (synonymResolution_firstMatch.1 [sampleAuthorProp]
    (FIELD_SYNONYMS .authors)).2 sampleAuthorProp (by decide)


/-! ## Claim C4: venue composition -/

/-- C4: evaluation of `getJournalPublisher` at the spec's own test inputs.
The empty-title case yields `Acme Press` as claimed, but the both-present case
yields the separator the source file literally contains — the UTF-8
double-encoded two-character sequence `\u00C2\u00B7` — so the result differs
from the claimed `Vol 2 \u00B7 Acme Press` (single middle dot). -/
theorem venueComposition_mojibakeSeparator :
    getJournalPublisher sampleBookNoTitle = "Acme Press"
    ∧ getJournalPublisher sampleBookVol2 = "Vol 2 \u00C2\u00B7 Acme Press"
    ∧ getJournalPublisher sampleBookVol2 ≠ "Vol 2 \u00B7 Acme Press" := by
  refine ⟨by decide, by decide, by decide⟩

/-! ## Claim C5: numeric coercion -/

theorem trimDropWhile_of_jsTrim_empty (s : String) (h : jsTrim s = "") :
    s.toList.dropWhile (fun c => c.isWhitespace) = [] := by
  have hdata := congrArg String.data h
  simp only [jsTrim] at hdata
  have hall : ∀ c ∈ s.toList.dropWhile (fun c => c.isWhitespace),
      c.isWhitespace := by
    intro c hc
    have hmem := hdata
    simp only [String.data] at hmem
    have hnil : ((s.toList.dropWhile (fun c => c.isWhitespace)).reverse.dropWhile
        (fun c => c.isWhitespace)) = [] := List.reverse_eq_nil_iff.mp hmem
    have := List.dropWhile_eq_nil_iff.mp hnil c (List.mem_reverse.mpr hc)
    simpa using this
  cases hd : s.toList.dropWhile (fun c => c.isWhitespace) with
  | nil => rfl
  | cons c t =>
    exfalso
    have hws : c.isWhitespace := hall c (by rw [hd]; exact List.mem_cons_self _ _)
    have hnot : ¬ ((fun c : Char => c.isWhitespace) c : Bool) := by
      have := List.head?_dropWhile_not (fun c : Char => c.isWhitespace) s.toList
      rw [hd] at this
      simpa using this
    exact hnot (by simpa using hws)

theorem parseInt10_none_of_jsTrim_empty (s : String) (h : jsTrim s = "") :
    parseInt10 s = none := by
  unfold parseInt10
  rw [trimDropWhile_of_jsTrim_empty s h]
  rfl

/-- C5: on a field of declared type `number`, a raw string is written as its
truncating base-10 integer parse under the field's storage key, and an
unparseable string writes nothing; in particular `"1999.5"` writes the integer
`1999` and `"abc"` writes nothing. -/
theorem numberCoercion_truncatingParse (fdt : String → String)
    (properties : PropMap) (prop : CraftCollectionSchemaProperty)
    (h : prop.type = "number") :
    (∀ s, setPropertyValue fdt properties (some prop) (some (.vstr s)) =
      match parseInt10 s with
      | some n => mapSet properties prop.key (.vint n)
      | none => properties)
    ∧ setPropertyValue fdt properties (some prop) (some (.vstr "1999.5"))
        = mapSet properties prop.key (.vint 1999)
    ∧ setPropertyValue fdt properties (some prop) (some (.vstr "abc"))
        = properties := by
  have main : ∀ s,
      setPropertyValue fdt properties (some prop) (some (.vstr s)) =
        match parseInt10 s with
        | some n => mapSet properties prop.key (.vint n)
        | none => properties := by
    intro s
    by_cases hb : isBlankString (.vstr s)
    · have hbs : jsTrim s = "" := by
        simpa [isBlankString] using hb
      rw [parseInt10_none_of_jsTrim_empty s hbs]
      simp [setPropertyValue, hb]
    · cases hp : parseInt10 s with
      | some n => simp [setPropertyValue, hb, h, jsToString, hp]
      | none => simp [setPropertyValue, hb, h, jsToString, hp]
  refine ⟨main, ?_, ?_⟩
  · rw [main]
    have : parseInt10 "1999.5" = some 1999 := by decide
    rw [this]
  · rw [main]
    have : parseInt10 "abc" = none := by decide
    rw [this]

/-- Witness for C5: the concrete number field at the two inputs. -/
theorem numberCoercion_truncatingParse_witness :
    setPropertyValue fdtId [] (some sampleNumberProp) (some (.vstr "1999.5"))
        = mapSet [] sampleNumberProp.key (.vint 1999)
    ∧ setPropertyValue fdtId [] (some sampleNumberProp) (some (.vstr "abc"))
        = [] :=
  ⟨(numberCoercion_truncatingParse fdtId [] sampleNumberProp rfl).2.1,
   (numberCoercion_truncatingParse fdtId [] sampleNumberProp rfl).2.2⟩


/-! ## Lemmas about `setPropertyValue` and property-map keys -/

theorem mem_mapSet {β : Type} {m : JsMap β} {k k' : String} {v v' : β}
    (h : (k', v') ∈ mapSet m k v) : (k', v') ∈ m ∨ k' = k := by
  induction m with
  | nil =>
    simp only [mapSet, List.mem_singleton] at h
    exact Or.inr (congrArg Prod.fst h)
  | cons e rest ih =>
    by_cases he : e.1 = k
    · simp only [mapSet, he, if_true, List.mem_cons] at h
      rcases h with h | h
      · exact Or.inr (congrArg Prod.fst h)
      · exact Or.inl (List.mem_cons_of_mem _ h)
    · simp only [mapSet, he, if_false, List.mem_cons] at h
      rcases h with h | h
      · exact Or.inl (h ▸ List.mem_cons_self _ _)
      · rcases ih h with h' | h'
        · exact Or.inl (List.mem_cons_of_mem _ h')
        · exact Or.inr h'

theorem setPropertyValue_shape (fdt : String → String) (properties : PropMap)
    (prop : CraftCollectionSchemaProperty) (value : Option Value) :
    ∃ r : Option Value,
      setPropertyValue fdt properties (some prop) value =
        match r with
        | none => properties
        | some v' => mapSet properties prop.key v' := by
  cases value with
  | none => exact ⟨none, rfl⟩
  | some v =>
    simp only [setPropertyValue]
    repeat' split
    all_goals first
      | exact ⟨none, rfl⟩
      | exact ⟨some _, rfl⟩

theorem setPropertyValue_none_prop (fdt : String → String)
    (properties : PropMap) (value : Option Value) :
    setPropertyValue fdt properties none value = properties := rfl

theorem setPropertyValue_none_value (fdt : String → String)
    (properties : PropMap) (prop : Option CraftCollectionSchemaProperty) :
    setPropertyValue fdt properties prop none = properties := by
  cases prop <;> rfl

theorem mem_setPropertyValue (fdt : String → String) (properties : PropMap)
    (po : Option CraftCollectionSchemaProperty) (value : Option Value)
    {k : String} {v : Value}
    (h : (k, v) ∈ setPropertyValue fdt properties po value) :
    (k, v) ∈ properties ∨ ∃ p, po = some p ∧ k = p.key := by
  cases po with
  | none => exact Or.inl h
  | some p =>
    obtain ⟨r, hr⟩ := setPropertyValue_shape fdt properties p value
    rw [hr] at h
    cases r with
    | none => exact Or.inl h
    | some v' =>
      rcases mem_mapSet h with h' | h'
      · exact Or.inl h'
      · exact Or.inr ⟨p, rfl, h'⟩

theorem findSchemaProperty_mem (idx : JsMap CraftCollectionSchemaProperty)
    (synonyms : List String) (p : CraftCollectionSchemaProperty)
    (h : findSchemaProperty idx synonyms = some p) :
    ∃ n, (n, p) ∈ idx := by
  unfold findSchemaProperty at h
  obtain ⟨s, _, hs⟩ := List.exists_of_findSome?_eq_some h
  exact ⟨normalizeName s, mapGet_mem hs⟩

/-! ## Claim C9: property-map keys come from the schema index -/

/-- C9: every key of the property map built by `buildCraftProperties` is the
storage key of a field definition present in the schema index, and an empty
schema index produces an empty property map. -/
theorem craftProperties_keysFromSchema :
    (∀ (dp : String → Option String) (fdt : String → String)
      (item : ZoteroItem) (schemaIndex : JsMap CraftCollectionSchemaProperty)
      (ock : Option String) (k : String) (v : Value),
      (k, v) ∈ buildCraftProperties dp fdt item schemaIndex ock →
      ∃ n p, (n, p) ∈ schemaIndex ∧ p.key = k)
    ∧ (∀ dp fdt item ock, buildCraftProperties dp fdt item [] ock = []) := by
  constructor
  · intro dp fdt item schemaIndex ock k v h
    have hres : ∀ (synonyms : List String)
        (p : CraftCollectionSchemaProperty),
        findSchemaProperty schemaIndex synonyms = some p → k = p.key →
        ∃ n q, (n, q) ∈ schemaIndex ∧ q.key = k := by
      intro synonyms p hp hk
      obtain ⟨n, hn⟩ := findSchemaProperty_mem schemaIndex synonyms p hp
      exact ⟨n, p, hn, hk.symm⟩
    simp only [buildCraftProperties, buildCraftPropertiesPreStatus] at h
    rcases mem_setPropertyValue _ _ _ _ h with h | ⟨p, hp, hk⟩
    on_goal 2 => exact hres _ p hp hk
    rcases mem_setPropertyValue _ _ _ _ h with h | ⟨p, hp, hk⟩
    on_goal 2 => exact hres _ p hp hk
    rcases mem_setPropertyValue _ _ _ _ h with h | ⟨p, hp, hk⟩
    on_goal 2 => exact hres _ p hp hk
    rcases mem_setPropertyValue _ _ _ _ h with h | ⟨p, hp, hk⟩
    on_goal 2 => exact hres _ p hp hk
    rcases mem_setPropertyValue _ _ _ _ h with h | ⟨p, hp, hk⟩
    on_goal 2 => exact hres _ p hp hk
    rcases mem_setPropertyValue _ _ _ _ h with h | ⟨p, hp, hk⟩
    on_goal 2 => exact hres _ p hp hk
    rcases mem_setPropertyValue _ _ _ _ h with h | ⟨p, hp, hk⟩
    on_goal 2 => exact hres _ p hp hk
    rcases mem_setPropertyValue _ _ _ _ h with h | ⟨p, hp, hk⟩
    on_goal 2 => exact hres _ p hp hk
    rcases mem_setPropertyValue _ _ _ _ h with h | ⟨p, hp, hk⟩
    on_goal 2 => exact hres _ p hp hk
    rcases mem_setPropertyValue _ _ _ _ h with h | ⟨p, hp, hk⟩
    on_goal 2 => exact hres _ p hp hk
    rcases mem_setPropertyValue _ _ _ _ h with h | ⟨p, hp, hk⟩
    on_goal 2 => exact hres _ p hp hk
    exact absurd h (List.not_mem_nil _)
  · intro dp fdt item ock
    rfl

/-- Witness for C9: the map built against the one-field `Author` schema
contains the key `f1`, and the schema index indeed supplies it. -/
theorem craftProperties_keysFromSchema_witness :
    ∃ n p, (n, p) ∈ sampleAuthorIndex ∧ p.key = "f1" :=
  craftProperties_keysFromSchema.1 dpNone fdtId sampleMinimalItem
    sampleAuthorIndex none "f1" (.vstr "Unknown Author") (by decide)


/-! ## Lemmas about option matching and the status default -/

theorem chooseStatusOption_eq_findSome (p : CraftCollectionSchemaProperty) :
    chooseStatusOption (some p) =
      if p.options.isEmpty then none
      else statusPreferred.findSome? (fun c => matchOption p.options c) := rfl

theorem mem_normalizeOptions_snd {options : List OptVal} {e : String × String}
    (h : e ∈ normalizeOptions options) : e.2 = jsToLower e.1 := by
  unfold normalizeOptions at h
  obtain ⟨s, _, rfl⟩ := List.mem_map.mp h
  rfl

theorem matchOption_self {options : List OptVal} {v r : String}
    (h : matchOption options v = some r) : matchOption options r = some r := by
  unfold matchOption at h ⊢
  cases hf : (normalizeOptions options).find?
      (fun option => option.2 == jsToLower v) with
  | none => rw [hf] at h; exact absurd h (by simp)
  | some e =>
    rw [hf] at h
    simp only [Option.map_some'] at h
    have hmem := List.mem_of_find?_eq_some hf
    have hpred := List.find?_some hf
    simp only [beq_iff_eq] at hpred
    have hsnd := mem_normalizeOptions_snd hmem
    have hr : e.1 = r := by injection h
    have hlow : jsToLower r = jsToLower v := by
      rw [← hr, ← hsnd, hpred]
    rw [hlow, hf]
    simp [hr]

theorem matchOption_lower {options : List OptVal} {v r : String}
    (h : matchOption options v = some r) : jsToLower r = jsToLower v := by
  unfold matchOption at h
  cases hf : (normalizeOptions options).find?
      (fun option => option.2 == jsToLower v) with
  | none => rw [hf] at h; exact absurd h (by simp)
  | some e =>
    rw [hf] at h
    simp only [Option.map_some'] at h
    have hmem := List.mem_of_find?_eq_some hf
    have hpred := List.find?_some hf
    simp only [beq_iff_eq] at hpred
    have hsnd := mem_normalizeOptions_snd hmem
    have hr : e.1 = r := by injection h
    rw [← hr, ← hsnd, hpred]

theorem all_whitespace_of_jsTrim_empty {s : String} (h : jsTrim s = "") :
    ∀ c ∈ s.toList, c.isWhitespace := by
  have hd := trimDropWhile_of_jsTrim_empty s h
  intro c hc
  have := List.dropWhile_eq_nil_iff.mp hd c hc
  simpa using this

theorem toLower_whitespace {c : Char} (h : c.isWhitespace) :
    c.toLower = c := by
  have hc : ((c = ' ' ∨ c = '\t') ∨ c = '\x0d') ∨ c = '\n' := by
    have := h
    unfold Char.isWhitespace at this
    simpa using this
  rcases hc with ((rfl | rfl) | rfl) | rfl <;> decide

theorem chooseStatusOption_not_blank {p : CraftCollectionSchemaProperty}
    {r : String} (h : chooseStatusOption (some p) = some r) :
    jsTrim r ≠ "" := by
  rw [chooseStatusOption_eq_findSome] at h
  by_cases hopts : p.options.isEmpty
  · rw [if_pos hopts] at h; exact absurd h (by simp)
  · rw [if_neg hopts] at h
    obtain ⟨c, hcmem, hc⟩ := List.exists_of_findSome?_eq_some h
    have hlowc : jsToLower c = c := by
      revert hcmem
      have : ∀ x ∈ statusPreferred, jsToLower x = x := by decide
      exact this c
    have hrc : jsToLower r = c := by
      rw [matchOption_lower hc, hlowc]
    intro hblank
    have hws := all_whitespace_of_jsTrim_empty hblank
    have hcws : ∀ x ∈ c.toList, x.isWhitespace := by
      intro x hx
      rw [← hrc] at hx
      simp only [jsToLower] at hx
      obtain ⟨y, hy, rfl⟩ := List.mem_map.mp (by simpa using hx)
      have := hws y hy
      rw [toLower_whitespace this]
      exact this
    have : ∀ x ∈ statusPreferred, ¬ (∀ y ∈ x.toList, y.isWhitespace) := by
      decide
    exact this c hcmem hcws

theorem setPropertyValue_select_match (fdt : String → String)
    (properties : PropMap) (p : CraftCollectionSchemaProperty) (r : String)
    (hsel : p.type = "select") (hopts : p.options ≠ [])
    (hm : matchOption p.options r = some r) (hnb : jsTrim r ≠ "") :
    setPropertyValue fdt properties (some p) (some (.vstr r)) =
      mapSet properties p.key (.vstr r) := by
  have hoptsb : p.options.isEmpty = false := by
    cases ho : p.options with
    | nil => exact absurd ho hopts
    | cons a l => rfl
  have hnbb : isBlankString (.vstr r) = false := by
    simp [isBlankString, hnb]
  simp [setPropertyValue, hnbb, hsel, hoptsb, jsToString, hm]

/-! ## Claim C10: the default status write -/

/-- C10 (amended): `chooseStatusOption` yields the raw display string of the
option matched by the first preference-list candidate, with `none` when no
candidate matches or there are no options; when the resolved status field has
declared type `select`, `buildCraftProperties` writes that string under the
field's storage key, and writes nothing in the `none` cases. (The claim as
stated, without the `select` restriction, fails on a number-typed status
field — see the counterexample.) -/
theorem statusDefault_firstPreferredSelect :
    (∀ p r, chooseStatusOption (some p) = some r ↔
      ¬ p.options.isEmpty ∧ ∃ l₁ c l₂, statusPreferred = l₁ ++ c :: l₂ ∧
        matchOption p.options c = some r ∧
        ∀ c' ∈ l₁, matchOption p.options c' = none)
    ∧ (∀ dp fdt item schemaIndex ock p,
        findSchemaProperty schemaIndex (FIELD_SYNONYMS .status) = some p →
        p.type = "select" →
        (∀ r, chooseStatusOption (some p) = some r →
          buildCraftProperties dp fdt item schemaIndex ock =
            mapSet (buildCraftPropertiesPreStatus dp fdt item schemaIndex ock)
              p.key (.vstr r))
        ∧ (chooseStatusOption (some p) = none →
          buildCraftProperties dp fdt item schemaIndex ock =
            buildCraftPropertiesPreStatus dp fdt item schemaIndex ock))
    ∧ (∀ dp fdt item schemaIndex ock,
        findSchemaProperty schemaIndex (FIELD_SYNONYMS .status) = none →
        buildCraftProperties dp fdt item schemaIndex ock =
          buildCraftPropertiesPreStatus dp fdt item schemaIndex ock) := by
  have part1 : ∀ p r, chooseStatusOption (some p) = some r ↔
      ¬ p.options.isEmpty ∧ ∃ l₁ c l₂, statusPreferred = l₁ ++ c :: l₂ ∧
        matchOption p.options c = some r ∧
        ∀ c' ∈ l₁, matchOption p.options c' = none := by
    intro p r
    rw [chooseStatusOption_eq_findSome]
    by_cases hopts : p.options.isEmpty
    · rw [if_pos hopts]
      simp [hopts]
    · rw [if_neg hopts]
      constructor
      · intro h
        exact ⟨hopts, List.findSome?_eq_some_iff.mp h⟩
      · intro ⟨_, hdec⟩
        exact List.findSome?_eq_some_iff.mpr hdec
  refine ⟨part1, ?_, ?_⟩
  · intro dp fdt item schemaIndex ock p hfind hsel
    constructor
    · intro r hr
      obtain ⟨hopts, l₁, c, l₂, _, hc, _⟩ := (part1 p r).mp hr
      have hopts' : p.options ≠ [] := by
        intro hh
        rw [hh] at hopts
        exact hopts rfl
      simp only [buildCraftProperties]
      rw [hfind, hr]
      simp only [Option.map_some']
      exact setPropertyValue_select_match fdt _ p r hsel hopts'
        (matchOption_self hc) (chooseStatusOption_not_blank hr)
    · intro hr
      simp only [buildCraftProperties]
      rw [hfind, hr]
      simp only [Option.map_none']
      exact setPropertyValue_none_value fdt _ (some p)
  · intro dp fdt item schemaIndex ock hnone
    simp only [buildCraftProperties]
    rw [hnone]
    rfl

/-- Witness for C10: the select-typed status schema concretely receives
`To Read` under its storage key. -/
theorem statusDefault_firstPreferredSelect_witness :
    buildCraftProperties dpNone fdtId sampleMinimalItem
        sampleStatusSelectIndex none =
      mapSet (buildCraftPropertiesPreStatus dpNone fdtId sampleMinimalItem
        sampleStatusSelectIndex none) sampleStatusSelectProp.key
        (.vstr "To Read") :=
  (statusDefault_firstPreferredSelect.2.1 dpNone fdtId sampleMinimalItem
    sampleStatusSelectIndex none sampleStatusSelectProp (by decide) rfl).1
    "To Read" (by decide)

/-- Counterexample for C10 as stated: a status field of declared type `number`
with non-empty options and a matching preferred candidate (`to read` matches
option `To Read`), for which `buildCraftProperties` writes no status property
at all. -/
theorem statusDefault_numberField_noWrite :
    findSchemaProperty sampleStatusNumberIndex (FIELD_SYNONYMS .status)
        = some sampleStatusNumberProp
    ∧ sampleStatusNumberProp.options ≠ []
    ∧ chooseStatusOption (some sampleStatusNumberProp) = some "To Read"
    ∧ sampleStatusNumberProp.key = "st"
    ∧ mapGet (buildCraftProperties dpNone fdtId sampleMinimalItem
        sampleStatusNumberIndex none) "st" = none := by
  refine ⟨by decide, by decide, by decide, by decide, by decide⟩


/-! ## Lemmas about the reconciliation engine step -/

theorem applyReadingDate_preserves (fdt : String → String) (env : Env)
    (idx : JsMap CraftCollectionSchemaProperty) (props : PropMap)
    (st : EngineState) :
    ((applyReadingDate fdt env idx props st).2.index = st.index)
    ∧ ((applyReadingDate fdt env idx props st).2.outcomes = st.outcomes)
    ∧ ((applyReadingDate fdt env idx props st).2.writes = st.writes) := by
  unfold applyReadingDate
  dsimp only
  repeat' split
  all_goals exact ⟨rfl, rfl, rfl⟩

theorem syncStep_outcomes (dp : String → Option String) (fdt : String → String)
    (env : Env) (idx : JsMap CraftCollectionSchemaProperty) (pos : Nat)
    (item : ZoteroItem) (st : EngineState) :
    (syncStep dp fdt env idx pos item st).outcomes
      = st.outcomes ++ [stepOutcome env pos item st] := by
  obtain ⟨hidx, hout, hw⟩ := applyReadingDate_preserves fdt env idx
    (buildCraftProperties dp fdt item idx (resolveCitationKey item)) st
  simp only [syncStep, stepOutcome]
  cases hn : env.notes pos with
  | error m => simp [recordItemError, appendOutcome, hout]
  | ok bs =>
    cases he : mapGet st.index (zoteroUriOfKey item.key) with
    | some eid =>
      cases hwr : env.write pos with
      | ok wid => simp [appendOutcome, hout]
      | error m => simp [recordItemError, appendOutcome, hout]
    | none =>
      cases hwr : env.write pos with
      | ok wid => simp [appendOutcome, hout]
      | error m => simp [recordItemError, appendOutcome, hout]

theorem syncStep_index (dp : String → Option String) (fdt : String → String)
    (env : Env) (idx : JsMap CraftCollectionSchemaProperty) (pos : Nat)
    (item : ZoteroItem) (st : EngineState) :
    (syncStep dp fdt env idx pos item st).index
      = stepIndex env pos item st := by
  obtain ⟨hidx, hout, hw⟩ := applyReadingDate_preserves fdt env idx
    (buildCraftProperties dp fdt item idx (resolveCitationKey item)) st
  simp only [syncStep, stepIndex]
  cases hn : env.notes pos with
  | error m => simp [recordItemError, appendOutcome, hidx]
  | ok bs =>
    cases he : mapGet st.index (zoteroUriOfKey item.key) with
    | some eid =>
      cases hwr : env.write pos with
      | ok wid => simp [appendOutcome, hidx]
      | error m => simp [recordItemError, appendOutcome, hidx]
    | none =>
      cases hwr : env.write pos with
      | ok wid => simp [appendOutcome, hidx]
      | error m => simp [recordItemError, appendOutcome, hidx]

theorem syncStep_writes_ok (dp : String → Option String)
    (fdt : String → String) (env : Env)
    (idx : JsMap CraftCollectionSchemaProperty) (pos : Nat) (item : ZoteroItem)
    (st : EngineState) (bs : List String) (hn : env.notes pos = .ok bs) :
    (syncStep dp fdt env idx pos item st).writes
      = st.writes ++ [(allowNewSelectOptionsFor idx item,
          (applyReadingDate fdt env idx
            (buildCraftProperties dp fdt item idx (resolveCitationKey item))
            st).1)] := by
  obtain ⟨hidx, hout, hw⟩ := applyReadingDate_preserves fdt env idx
    (buildCraftProperties dp fdt item idx (resolveCitationKey item)) st
  simp only [syncStep]
  rw [hn]
  cases he : mapGet st.index (zoteroUriOfKey item.key) with
  | some eid =>
    cases hwr : env.write pos with
    | ok wid => simp [appendOutcome, hw]
    | error m => simp [recordItemError, appendOutcome, hw]
  | none =>
    cases hwr : env.write pos with
    | ok wid => simp [appendOutcome, hw]
    | error m => simp [recordItemError, appendOutcome, hw]

theorem syncStep_writes_error (dp : String → Option String)
    (fdt : String → String) (env : Env)
    (idx : JsMap CraftCollectionSchemaProperty) (pos : Nat) (item : ZoteroItem)
    (st : EngineState) (m : String) (hn : env.notes pos = .error m) :
    (syncStep dp fdt env idx pos item st).writes = st.writes := by
  obtain ⟨hidx, hout, hw⟩ := applyReadingDate_preserves fdt env idx
    (buildCraftProperties dp fdt item idx (resolveCitationKey item)) st
  simp only [syncStep]
  rw [hn]
  simp [recordItemError, appendOutcome, hw]

theorem syncStep_rdState (dp : String → Option String) (fdt : String → String)
    (env : Env) (idx : JsMap CraftCollectionSchemaProperty) (pos : Nat)
    (item : ZoteroItem) (st : EngineState) :
    ((syncStep dp fdt env idx pos item st).dailyNoteId
      = (applyReadingDate fdt env idx
          (buildCraftProperties dp fdt item idx (resolveCitationKey item))
          st).2.dailyNoteId)
    ∧ ((syncStep dp fdt env idx pos item st).dailyCalls
      = (applyReadingDate fdt env idx
          (buildCraftProperties dp fdt item idx (resolveCitationKey item))
          st).2.dailyCalls)
    ∧ ((syncStep dp fdt env idx pos item st).readingDateWarning
      = (applyReadingDate fdt env idx
          (buildCraftProperties dp fdt item idx (resolveCitationKey item))
          st).2.readingDateWarning) := by
  simp only [syncStep]
  cases hn : env.notes pos with
  | error m => exact ⟨rfl, rfl, rfl⟩
  | ok bs =>
    cases he : mapGet st.index (zoteroUriOfKey item.key) with
    | some eid =>
      cases hwr : env.write pos with
      | ok wid => exact ⟨rfl, rfl, rfl⟩
      | error m => exact ⟨rfl, rfl, rfl⟩
    | none =>
      cases hwr : env.write pos with
      | ok wid => exact ⟨rfl, rfl, rfl⟩
      | error m => exact ⟨rfl, rfl, rfl⟩


/-! ## Run-level lemmas -/

theorem syncRun_nil (dp : String → Option String) (fdt : String → String)
    (env : Env) (idx : JsMap CraftCollectionSchemaProperty) (pos : Nat)
    (st : EngineState) : syncRun dp fdt env idx pos [] st = st := rfl

theorem syncRun_cons (dp : String → Option String) (fdt : String → String)
    (env : Env) (idx : JsMap CraftCollectionSchemaProperty) (pos : Nat)
    (item : ZoteroItem) (rest : List ZoteroItem) (st : EngineState) :
    syncRun dp fdt env idx pos (item :: rest) st
      = syncRun dp fdt env idx (pos + 1) rest
          (syncStep dp fdt env idx pos item st) := rfl

theorem syncRun_append (dp : String → Option String) (fdt : String → String)
    (env : Env) (idx : JsMap CraftCollectionSchemaProperty)
    (l₁ l₂ : List ZoteroItem) :
    ∀ (pos : Nat) (st : EngineState),
      syncRun dp fdt env idx pos (l₁ ++ l₂) st
        = syncRun dp fdt env idx (pos + l₁.length) l₂
            (syncRun dp fdt env idx pos l₁ st) := by
  induction l₁ with
  | nil => intro pos st; simp [syncRun]
  | cons it rest ih =>
    intro pos st
    rw [List.cons_append, syncRun_cons, syncRun_cons, ih]
    have harith : pos + 1 + rest.length = pos + (it :: rest).length := by
      simp [List.length_cons]
      omega
    rw [harith]

theorem syncRun_outcomes_prefix (dp : String → Option String)
    (fdt : String → String) (env : Env)
    (idx : JsMap CraftCollectionSchemaProperty) (items : List ZoteroItem) :
    ∀ (pos : Nat) (st : EngineState),
      ∃ suffix, (syncRun dp fdt env idx pos items st).outcomes
        = st.outcomes ++ suffix := by
  induction items with
  | nil => intro pos st; exact ⟨[], by simp [syncRun]⟩
  | cons it rest ih =>
    intro pos st
    obtain ⟨suffix, hsuf⟩ := ih (pos + 1) (syncStep dp fdt env idx pos it st)
    refine ⟨[stepOutcome env pos it st] ++ suffix, ?_⟩
    rw [syncRun_cons, hsuf, syncStep_outcomes]
    simp [List.append_assoc]

theorem syncRun_outcomes_length (dp : String → Option String)
    (fdt : String → String) (env : Env)
    (idx : JsMap CraftCollectionSchemaProperty) (items : List ZoteroItem) :
    ∀ (pos : Nat) (st : EngineState),
      (syncRun dp fdt env idx pos items st).outcomes.length
        = st.outcomes.length + items.length := by
  induction items with
  | nil => intro pos st; simp [syncRun]
  | cons it rest ih =>
    intro pos st
    rw [syncRun_cons, ih]
    rw [syncStep_outcomes]
    simp [List.length_append]
    omega

theorem stepOutcome_title (env : Env) (pos : Nat) (item : ZoteroItem)
    (st : EngineState) : (stepOutcome env pos item st).title = titleOf item := by
  unfold stepOutcome
  repeat' split
  all_goals rfl

theorem syncRun_outcome_get (dp : String → Option String)
    (fdt : String → String) (env : Env)
    (idx : JsMap CraftCollectionSchemaProperty) (items : List ZoteroItem) :
    ∀ (pos : Nat) (st : EngineState) (i : Nat), i < items.length →
      ∀ (h : i < items.length),
      ∃ e, (syncRun dp fdt env idx pos items st).outcomes[st.outcomes.length
          + i]? = some e ∧
        e.title = titleOf (items.get ⟨i, h⟩) ∧
        (∀ m, env.notes (pos + i) = .error m →
          e = ⟨titleOf (items.get ⟨i, h⟩), .error, some (truncate m 140),
            some m⟩) ∧
        (∀ bs m, env.notes (pos + i) = .ok bs → env.write (pos + i) = .error m →
          e = ⟨titleOf (items.get ⟨i, h⟩), .error, some (truncate m 140),
            some m⟩) ∧
        (∀ bs wid, env.notes (pos + i) = .ok bs →
          env.write (pos + i) = .ok wid →
          (e.status = .created ∨ e.status = .updated) ∧ e.details = none) := by
  induction items with
  | nil => intro pos st i hi h; exact absurd h (by simp)
  | cons it rest ih =>
    intro pos st i hi h
    cases i with
    | zero =>
      rw [syncRun_cons]
      obtain ⟨suffix, hsuf⟩ :=
        syncRun_outcomes_prefix dp fdt env idx rest (pos + 1)
          (syncStep dp fdt env idx pos it st)
      rw [hsuf, syncStep_outcomes]
      refine ⟨stepOutcome env pos it st, ?_, ?_, ?_, ?_, ?_⟩
      · rw [List.append_assoc, Nat.add_zero,
          List.getElem?_append_right (Nat.le_refl _)]
        simp
      · exact stepOutcome_title env pos it st
      · intro m hm
        unfold stepOutcome
        rw [Nat.add_zero] at hm
        rw [hm]
        rfl
      · intro bs m hn hw
        unfold stepOutcome
        rw [Nat.add_zero] at hn hw
        rw [hn, hw]
        rfl
      · intro bs wid hn hw
        unfold stepOutcome
        rw [Nat.add_zero] at hn hw
        rw [hn, hw]
        cases mapGet st.index (zoteroUriOfKey it.key) with
        | some eid => exact ⟨Or.inr rfl, rfl⟩
        | none => exact ⟨Or.inl rfl, rfl⟩
    | succ i' =>
      have h' : i' < rest.length := by
        simpa [Nat.succ_lt_succ_iff] using h
      rw [syncRun_cons]
      obtain ⟨e, hget, htitle, herr1, herr2, hok⟩ :=
        ih (pos + 1) (syncStep dp fdt env idx pos it st) i' h' h'
      have hlen : (syncStep dp fdt env idx pos it st).outcomes.length
          = st.outcomes.length + 1 := by
        rw [syncStep_outcomes]
        simp
      have hidxeq : st.outcomes.length + (i' + 1)
          = (syncStep dp fdt env idx pos it st).outcomes.length + i' := by
        rw [hlen]; omega
      have hpos : pos + 1 + i' = pos + (i' + 1) := by omega
      rw [hpos] at herr1 herr2 hok
      refine ⟨e, ?_, ?_, ?_, ?_, ?_⟩
      · rw [hidxeq]; exact hget
      · simpa using htitle
      · simpa using herr1
      · simpa using herr2
      · simpa using hok


/-! ## Claim C2: partial-failure isolation -/

/-- C2: every batch produces exactly one outcome per item (no aborted batch);
an item's outcome is `error` exactly when its note fetch or its remote write
throws, in which case the log entry carries the truncated message (and the
full message as diagnostic); and the 3-item batch whose second write throws
yields outcome statuses `[created, error, created]`. -/
theorem partialFailureIsolation :
    (∀ (dp : String → Option String) (fdt : String → String) (env : Env)
      (idx : JsMap CraftCollectionSchemaProperty) (pos : Nat)
      (items : List ZoteroItem) (st : EngineState),
      (syncRun dp fdt env idx pos items st).outcomes.length
        = st.outcomes.length + items.length)
    ∧ (∀ (dp : String → Option String) (fdt : String → String) (env : Env)
        (idx : JsMap CraftCollectionSchemaProperty) (pos : Nat)
        (items : List ZoteroItem) (st : EngineState) (i : Nat),
        i < items.length →
        ((((syncRun dp fdt env idx pos items st).outcomes[st.outcomes.length
            + i]?).map (·.status) = some .error) ↔ itemFails env (pos + i)))
    ∧ (∀ (dp : String → Option String) (fdt : String → String) (env : Env)
        (idx : JsMap CraftCollectionSchemaProperty) (pos : Nat)
        (items : List ZoteroItem) (st : EngineState) (i : Nat)
        (h : i < items.length) (m : String),
        (env.notes (pos + i) = .error m ∨
          ((∃ bs, env.notes (pos + i) = .ok bs) ∧
            env.write (pos + i) = .error m)) →
        (syncRun dp fdt env idx pos items st).outcomes[st.outcomes.length + i]?
          = some ⟨titleOf (items.get ⟨i, h⟩), .error, some (truncate m 140),
              some m⟩)
    ∧ ((syncRun dpNone fdtId envFailSecond [] 0 sampleThreeItems
          ({} : EngineState)).outcomes.map (·.status)
        = [.created, .error, .created])
    ∧ (((syncRun dpNone fdtId envFailSecond [] 0 sampleThreeItems
          ({} : EngineState)).outcomes[1]?).map (·.details)
        = some (some "boom")) := by
  refine ⟨?_, ?_, ?_, by decide, by decide⟩
  · intro dp fdt env idx pos items st
    exact syncRun_outcomes_length dp fdt env idx items pos st
  · intro dp fdt env idx pos items st i h
    obtain ⟨e, hget, htitle, herr1, herr2, hok⟩ :=
      syncRun_outcome_get dp fdt env idx items pos st i h h
    rw [hget]
    simp only [Option.map_some', Option.some.injEq]
    constructor
    · intro hstatus
      cases h1 : env.notes (pos + i) with
      | error m => exact Or.inl ⟨m, h1⟩
      | ok bs =>
        cases h2 : env.write (pos + i) with
        | error m => exact Or.inr ⟨m, h2⟩
        | ok wid =>
          exfalso
          rcases (hok bs wid h1 h2).1 with hs | hs <;>
            rw [hs] at hstatus <;> cases hstatus
    · rintro (⟨m, hm⟩ | ⟨m, hm⟩)
      · rw [herr1 m hm]
      · cases h1 : env.notes (pos + i) with
        | error m' => rw [herr1 m' h1]
        | ok bs => rw [herr2 bs m h1 hm]
  · intro dp fdt env idx pos items st i h m hfail
    obtain ⟨e, hget, htitle, herr1, herr2, hok⟩ :=
      syncRun_outcome_get dp fdt env idx items pos st i h h
    rw [hget]
    rcases hfail with hm | ⟨⟨bs, hbs⟩, hm⟩
    · rw [herr1 m hm]
    · rw [herr2 bs m hbs hm]

/-- Witness for C2: the second item of the failing batch concretely produces
the truncated error entry. -/
theorem partialFailureIsolation_witness :
    (syncRun dpNone fdtId envFailSecond [] 0 sampleThreeItems
        ({} : EngineState)).outcomes[1]?
      = some ⟨titleOf sampleItemB, .error, some (truncate "boom" 140),
          some "boom"⟩ :=
  partialFailureIsolation.2.2.1 dpNone fdtId envFailSecond [] 0
    sampleThreeItems {} 1 (by decide) "boom" (Or.inr ⟨⟨[], rfl⟩, rfl⟩)


/-! ## Lemmas for idempotent reconciliation -/

theorem zoteroUriOfKey_inj {k1 k2 : String}
    (h : zoteroUriOfKey k1 = zoteroUriOfKey k2) : k1 = k2 := by
  unfold zoteroUriOfKey at h
  have hd := congrArg String.data h
  simp only [String.data_append] at hd
  have := List.append_cancel_left hd
  obtain ⟨l1⟩ := k1
  obtain ⟨l2⟩ := k2
  simp only at this
  rw [this]

theorem stepIndex_isSome (env : Env) (pos : Nat) (item : ZoteroItem)
    (st : EngineState) (u : String)
    (hn : ∃ bs, env.notes pos = .ok bs)
    (hw : ∃ wid, env.write pos = .ok wid) :
    ((mapGet (stepIndex env pos item st) u).isSome
      ↔ (mapGet st.index u).isSome ∨ u = zoteroUriOfKey item.key) := by
  obtain ⟨bs, hn⟩ := hn
  obtain ⟨wid, hw⟩ := hw
  simp only [stepIndex, hn]
  cases he : mapGet st.index (zoteroUriOfKey item.key) with
  | some eid =>
    simp only [hw]
    constructor
    · exact Or.inl
    · rintro (hu | rfl)
      · exact hu
      · rw [he]; rfl
  | none =>
    simp only [hw]
    rw [mapGet_mapSet]
    by_cases hu : u = zoteroUriOfKey item.key
    · rw [if_pos hu]
      simp [hu]
    · rw [if_neg hu]
      simp [hu]

theorem syncRun_index_isSome (dp : String → Option String)
    (fdt : String → String) (env : Env)
    (idx : JsMap CraftCollectionSchemaProperty) (items : List ZoteroItem)
    (hn : ∀ q, ∃ bs, env.notes q = .ok bs)
    (hw : ∀ q, ∃ wid, env.write q = .ok wid) :
    ∀ (pos : Nat) (st : EngineState) (u : String),
      ((mapGet (syncRun dp fdt env idx pos items st).index u).isSome
        ↔ (mapGet st.index u).isSome
          ∨ ∃ it ∈ items, u = zoteroUriOfKey it.key) := by
  induction items with
  | nil =>
    intro pos st u
    simp [syncRun]
  | cons it rest ih =>
    intro pos st u
    rw [syncRun_cons, ih (pos + 1) _ u]
    rw [syncStep_index, stepIndex_isSome env pos it st u (hn pos) (hw pos)]
    simp only [List.exists_mem_cons_iff]
    tauto

theorem syncRun_allUpdated (dp : String → Option String)
    (fdt : String → String) (env : Env)
    (idx : JsMap CraftCollectionSchemaProperty) (items : List ZoteroItem)
    (hn : ∀ q, ∃ bs, env.notes q = .ok bs)
    (hw : ∀ q, ∃ wid, env.write q = .ok wid) :
    ∀ (pos : Nat) (st : EngineState),
      (∀ it ∈ items, (mapGet st.index (zoteroUriOfKey it.key)).isSome) →
      (syncRun dp fdt env idx pos items st).outcomes
        = st.outcomes
          ++ items.map (fun it => ⟨titleOf it, .updated, none, none⟩) := by
  induction items with
  | nil => intro pos st _; simp [syncRun]
  | cons it rest ih =>
    intro pos st hall
    obtain ⟨bs, hnp⟩ := hn pos
    obtain ⟨wid, hwp⟩ := hw pos
    obtain ⟨eid, he⟩ := Option.isSome_iff_exists.mp
      (hall it (List.mem_cons_self _ _))
    have hstep : stepOutcome env pos it st
        = ⟨titleOf it, .updated, none, none⟩ := by
      unfold stepOutcome
      rw [hnp, hwp, he]
    have hindex : (syncStep dp fdt env idx pos it st).index = st.index := by
      rw [syncStep_index]
      simp only [stepIndex, hnp, he]
    rw [syncRun_cons, ih (pos + 1) _ ?_]
    · rw [syncStep_outcomes, hstep]
      simp [List.append_assoc]
    · intro it' hit'
      rw [hindex]
      exact hall it' (List.mem_cons_of_mem _ hit')

theorem syncRun_allCreated (dp : String → Option String)
    (fdt : String → String) (env : Env)
    (idx : JsMap CraftCollectionSchemaProperty) (items : List ZoteroItem)
    (hn : ∀ q, ∃ bs, env.notes q = .ok bs)
    (hw : ∀ q, ∃ wid, env.write q = .ok wid) :
    ∀ (pos : Nat) (st : EngineState),
      (items.map (fun it => it.key)).Nodup →
      (∀ it ∈ items, mapGet st.index (zoteroUriOfKey it.key) = none) →
      (syncRun dp fdt env idx pos items st).outcomes
        = st.outcomes
          ++ items.map (fun it => ⟨titleOf it, .created, none, none⟩) := by
  induction items with
  | nil => intro pos st _ _; simp [syncRun]
  | cons it rest ih =>
    intro pos st hnodup habs
    obtain ⟨bs, hnp⟩ := hn pos
    obtain ⟨wid, hwp⟩ := hw pos
    have he := habs it (List.mem_cons_self _ _)
    have hstep : stepOutcome env pos it st
        = ⟨titleOf it, .created, none, none⟩ := by
      unfold stepOutcome
      rw [hnp, hwp, he]
    have hindex : (syncStep dp fdt env idx pos it st).index
        = mapSet st.index (zoteroUriOfKey it.key) wid := by
      rw [syncStep_index]
      simp only [stepIndex, hnp, he, hwp]
    have hpair : (∀ x ∈ rest, ¬ x.key = it.key)
        ∧ (rest.map (fun it => it.key)).Nodup := by
      simpa using hnodup
    have hnodup' : (rest.map (fun it => it.key)).Nodup := hpair.2
    have hnotmem : it.key ∉ rest.map (fun it => it.key) := by
      intro hmem
      obtain ⟨it', hit', hk⟩ := List.mem_map.mp hmem
      exact hpair.1 it' hit' hk
    rw [syncRun_cons, ih (pos + 1) _ hnodup' ?_]
    · rw [syncStep_outcomes, hstep]
      simp [List.append_assoc]
    · intro it' hit'
      rw [hindex, mapGet_mapSet_ne]
      · exact habs it' (List.mem_cons_of_mem _ hit')
      · intro hcontra
        have hk := zoteroUriOfKey_inj hcontra
        exact hnotmem (hk ▸ List.mem_map_of_mem (fun it => it.key) hit')


/-! ## Claim C1: idempotent reconciliation -/

/-- C1: with an initially empty identity index and an all-success remote,
a batch of items with distinct keys yields `created` for every item on the
first run; a second run over the same list (the index now holding every
entry inserted on create) yields `updated` for every item, and a third run
again all `updated`; moreover, within a single run, a later occurrence of an
item already created earlier in the batch is found in the index and yields
`updated`, because the create branch inserts the link-to-id entry
immediately. -/
theorem idempotentReconciliation :
    ∀ (dp : String → Option String) (fdt : String → String)
      (env1 env2 env3 : Env) (idx : JsMap CraftCollectionSchemaProperty)
      (items : List ZoteroItem),
      (∀ q, ∃ bs, env1.notes q = .ok bs) →
      (∀ q, ∃ wid, env1.write q = .ok wid) →
      (∀ q, ∃ bs, env2.notes q = .ok bs) →
      (∀ q, ∃ wid, env2.write q = .ok wid) →
      (∀ q, ∃ bs, env3.notes q = .ok bs) →
      (∀ q, ∃ wid, env3.write q = .ok wid) →
      (items.map (fun it => it.key)).Nodup →
      ((syncRun dp fdt env1 idx 0 items ({} : EngineState)).outcomes
        = items.map (fun it => ⟨titleOf it, .created, none, none⟩))
      ∧ ((syncRun dp fdt env2 idx 0 items
            (syncRun dp fdt env1 idx 0 items ({} : EngineState))).outcomes
        = (syncRun dp fdt env1 idx 0 items ({} : EngineState)).outcomes
          ++ items.map (fun it => ⟨titleOf it, .updated, none, none⟩))
      ∧ ((syncRun dp fdt env3 idx 0 items
            (syncRun dp fdt env2 idx 0 items
              (syncRun dp fdt env1 idx 0 items ({} : EngineState)))).outcomes
        = (syncRun dp fdt env2 idx 0 items
            (syncRun dp fdt env1 idx 0 items ({} : EngineState))).outcomes
          ++ items.map (fun it => ⟨titleOf it, .updated, none, none⟩))
      ∧ (∀ it ∈ items, ∀ env4 : Env,
          (∀ q, ∃ bs, env4.notes q = .ok bs) →
          (∀ q, ∃ wid, env4.write q = .ok wid) →
          (syncRun dp fdt env4 idx 0 (items ++ [it])
              ({} : EngineState)).outcomes
            = (syncRun dp fdt env4 idx 0 items ({} : EngineState)).outcomes
              ++ [⟨titleOf it, .updated, none, none⟩]) := by
  intro dp fdt env1 env2 env3 idx items hn1 hw1 hn2 hw2 hn3 hw3 hnodup
  have habs0 : ∀ it ∈ items,
      mapGet ({} : EngineState).index (zoteroUriOfKey it.key) = none :=
    fun it _ => rfl
  have hmem1 : ∀ it ∈ items,
      (mapGet (syncRun dp fdt env1 idx 0 items
        ({} : EngineState)).index (zoteroUriOfKey it.key)).isSome := by
    intro it hit
    rw [syncRun_index_isSome dp fdt env1 idx items hn1 hw1 0 {}
      (zoteroUriOfKey it.key)]
    exact Or.inr ⟨it, hit, rfl⟩
  have hmem2 : ∀ it ∈ items,
      (mapGet (syncRun dp fdt env2 idx 0 items
        (syncRun dp fdt env1 idx 0 items ({} : EngineState))).index
        (zoteroUriOfKey it.key)).isSome := by
    intro it hit
    rw [syncRun_index_isSome dp fdt env2 idx items hn2 hw2 0 _
      (zoteroUriOfKey it.key)]
    exact Or.inr ⟨it, hit, rfl⟩
  refine ⟨?_, ?_, ?_, ?_⟩
  · have := syncRun_allCreated dp fdt env1 idx items hn1 hw1 0 {} hnodup habs0
    simpa using this
  · exact syncRun_allUpdated dp fdt env2 idx items hn2 hw2 0 _ hmem1
  · exact syncRun_allUpdated dp fdt env3 idx items hn3 hw3 0 _ hmem2
  · intro it hit env4 hn4 hw4
    rw [syncRun_append]
    rw [syncRun_cons, syncRun_nil]
    rw [syncStep_outcomes]
    obtain ⟨bs, hnp⟩ := hn4 (0 + items.length)
    obtain ⟨wid, hwp⟩ := hw4 (0 + items.length)
    have hsome : (mapGet (syncRun dp fdt env4 idx 0 items
        ({} : EngineState)).index (zoteroUriOfKey it.key)).isSome := by
      rw [syncRun_index_isSome dp fdt env4 idx items hn4 hw4 0 {}
        (zoteroUriOfKey it.key)]
      exact Or.inr ⟨it, hit, rfl⟩
    obtain ⟨eid, he⟩ := Option.isSome_iff_exists.mp hsome
    have hstep : stepOutcome env4 (0 + items.length) it
        (syncRun dp fdt env4 idx 0 items ({} : EngineState))
        = ⟨titleOf it, .updated, none, none⟩ := by
      unfold stepOutcome
      rw [hnp, hwp, he]
    rw [hstep]

/-- Witness for C1: the first run over the concrete two-item batch against an
empty index creates both items. -/
theorem idempotentReconciliation_witness :
    (syncRun dpNone fdtId envAllOk [] 0 sampleTwoItems
        ({} : EngineState)).outcomes
      = sampleTwoItems.map (fun it => ⟨titleOf it, .created, none, none⟩) :=
  (idempotentReconciliation dpNone fdtId envAllOk envAllOk envAllOk []
    sampleTwoItems (fun _ => ⟨[], rfl⟩) (fun q => ⟨"id" ++ toString q, rfl⟩)
    (fun _ => ⟨[], rfl⟩) (fun q => ⟨"id" ++ toString q, rfl⟩)
    (fun _ => ⟨[], rfl⟩) (fun q => ⟨"id" ++ toString q, rfl⟩)
    (by decide)).1


/-! ## Claim C6: the allow-new-select-options flag -/

/-- C6 (amended): whenever a create/update call is issued, the flag passed is
`allowNewSelectOptionsFor`: true exactly when the item has at least one
non-empty tag and either NO tags field resolves or the resolved tags field's
lowercased type is `select`/`multiselect`. Consequently a plain-text tags
field never gets the flag, an enumerated tags field with tags always does —
but (contrary to the claim as stated) so does a schema with no tags field at
all. -/
theorem allowNewOptionsFlag :
    (∀ (dp : String → Option String) (fdt : String → String) (env : Env)
      (idx : JsMap CraftCollectionSchemaProperty) (pos : Nat)
      (item : ZoteroItem) (st : EngineState) (bs : List String),
      env.notes pos = .ok bs →
      (syncStep dp fdt env idx pos item st).writes.map (·.1)
        = st.writes.map (·.1) ++ [allowNewSelectOptionsFor idx item])
    ∧ (∀ (idx : JsMap CraftCollectionSchemaProperty) (item : ZoteroItem)
        (p : CraftCollectionSchemaProperty),
        getTagsProperty idx = some p → jsToLower p.type = "text" →
        allowNewSelectOptionsFor idx item = false)
    ∧ (∀ (idx : JsMap CraftCollectionSchemaProperty) (item : ZoteroItem)
        (p : CraftCollectionSchemaProperty),
        getTagsProperty idx = some p →
        (jsToLower p.type = "select" ∨ jsToLower p.type = "multiselect") →
        (item.data.tags.map jsTrim).filter (fun t => t ≠ "") ≠ [] →
        allowNewSelectOptionsFor idx item = true)
    ∧ (∀ (idx : JsMap CraftCollectionSchemaProperty) (item : ZoteroItem),
        (item.data.tags.map jsTrim).filter (fun t => t ≠ "") = [] →
        allowNewSelectOptionsFor idx item = false) := by
  refine ⟨?_, ?_, ?_, ?_⟩
  · intro dp fdt env idx pos item st bs hn
    rw [syncStep_writes_ok dp fdt env idx pos item st bs hn]
    simp
  · intro idx item p hp htext
    have hcf : (["select", "multiselect"].contains ("text" : String))
        = false := by decide
    simp only [allowNewSelectOptionsFor, hp, htext, hcf, Bool.and_false]
  · intro idx item p hp htype htags
    have hne : ((item.data.tags.map jsTrim).filter
        (fun t => t ≠ "")).isEmpty = false := by
      cases hl : (item.data.tags.map jsTrim).filter (fun t => t ≠ "") with
      | nil => exact absurd hl htags
      | cons a l => rfl
    have hcs : (["select", "multiselect"].contains ("select" : String))
        = true := by decide
    have hcm : (["select", "multiselect"].contains ("multiselect" : String))
        = true := by decide
    rcases htype with ht | ht <;>
      simp only [allowNewSelectOptionsFor, hp, hne, ht, hcs, hcm,
        Bool.not_false, Bool.true_and]
  · intro idx item htags
    simp only [allowNewSelectOptionsFor, htags]
    rfl

/-- Witness for C6 (amended): the write issued for the tagged item against
the text-typed tags schema carries flag `false`. -/
theorem allowNewOptionsFlag_witness :
    allowNewSelectOptionsFor
        (buildSchemaIndex
          (some ⟨[⟨"Tags", "tg", "text", []⟩]⟩)) sampleTaggedItem = false :=
  allowNewOptionsFlag.2.1
    (buildSchemaIndex (some ⟨[⟨"Tags", "tg", "text", []⟩]⟩)) sampleTaggedItem
    ⟨"Tags", "tg", "text", []⟩ (by decide) (by decide)

/-- Counterexample for C6 as stated: with no tags field in the schema at all
(so no resolved enumerated tags field), the create call for an item with one
non-empty tag is still issued with the allow-new-select-options flag set. -/
theorem allowNewOptionsFlag_noTagsField :
    getTagsProperty ([] : JsMap CraftCollectionSchemaProperty) = none
    ∧ (sampleTaggedItem.data.tags.map jsTrim).filter (fun t => t ≠ "") ≠ []
    ∧ (syncRun dpNone fdtId envAllOk [] 0 [sampleTaggedItem]
        ({} : EngineState)).writes.map (·.1) = [true] := by
  refine ⟨by decide, by decide, by decide⟩

/-! ## Claim C8: delete and the identity index -/

/-- C8: the confirmed delete operation issues exactly one remote delete call
carrying the given remote id; on success the identity-index entry for the
item's external link is removed and every other entry is untouched, with a
`deleted` log entry; on failure the identity index is unchanged and an
`error` entry with the truncated message is logged. -/
theorem deleteIdentityIndexAtomic :
    ∀ (item : ZoteroItem) (itemId : String) (st : EngineState)
      (res : Except String Unit),
      ((deleteExistingItem true res item itemId st).2 = [[itemId]])
      ∧ (res = .ok () →
          (mapGet (deleteExistingItem true res item itemId st).1.index
              (zoteroUriOfKey item.key) = none)
          ∧ (∀ u, u ≠ zoteroUriOfKey item.key →
              mapGet (deleteExistingItem true res item itemId st).1.index u
                = mapGet st.index u)
          ∧ ((deleteExistingItem true res item itemId st).1.log
              = st.log ++ [⟨titleOf item, .deleted,
                  some "Deleted from Craft.", none⟩]))
      ∧ (∀ m, res = .error m →
          ((deleteExistingItem true res item itemId st).1.index = st.index)
          ∧ ((deleteExistingItem true res item itemId st).1.log
              = st.log ++ [⟨titleOf item, .error, some (truncate m 140),
                  some m⟩])) := by
  intro item itemId st res
  cases res with
  | ok u =>
    cases u
    refine ⟨rfl, ?_, ?_⟩
    · intro _
      refine ⟨?_, ?_, rfl⟩
      · simp [deleteExistingItem, mapGet_mapDelete]
      · intro u hu
        have hidx : (deleteExistingItem true (Except.ok ()) item itemId
            st).1.index = mapDelete st.index (zoteroUriOfKey item.key) := by
          simp [deleteExistingItem]
        rw [hidx, mapGet_mapDelete, if_neg hu]
    · intro m hm
      cases hm
  | error m0 =>
    refine ⟨rfl, ?_, ?_⟩
    · intro hm
      cases hm
    · intro m hm
      injection hm with hm
      subst hm
      exact ⟨rfl, rfl⟩

/-- Witness for C8: concrete success removes the entry; concrete failure
leaves the index unchanged. -/
theorem deleteIdentityIndexAtomic_witness :
    (mapGet (deleteExistingItem true (.ok ()) sampleItemA "id7"
        sampleIndexedState).1.index (zoteroUriOfKey sampleItemA.key) = none)
    ∧ ((deleteExistingItem true (.error "denied") sampleItemA "id7"
        sampleIndexedState).1.index = sampleIndexedState.index) :=
  ⟨((deleteIdentityIndexAtomic sampleItemA "id7" sampleIndexedState
      (.ok ())).2.1 rfl).1,
   ((deleteIdentityIndexAtomic sampleItemA "id7" sampleIndexedState
      (.error "denied")).2.2 "denied" rfl).1⟩


/-! ## Lemmas for the reading-date resolver -/

theorem applyReadingDate_warnConserve (fdt : String → String) (env : Env)
    (idx : JsMap CraftCollectionSchemaProperty) (props : PropMap)
    (st : EngineState) :
    (applyReadingDate fdt env idx props st).2.log.countP
        (fun e => decide (e.status = SyncStatus.skipped))
      + (if (applyReadingDate fdt env idx props st).2.readingDateWarning
          then 0 else 1)
      = st.log.countP (fun e => decide (e.status = SyncStatus.skipped))
        + (if st.readingDateWarning then 0 else 1) := by
  unfold applyReadingDate
  dsimp only
  repeat' split
  all_goals simp_all [List.countP_append, List.countP_cons]

theorem stepOutcome_not_skipped (env : Env) (pos : Nat) (item : ZoteroItem)
    (st : EngineState) : (stepOutcome env pos item st).status ≠ .skipped := by
  unfold stepOutcome
  repeat' split
  all_goals simp

theorem syncStep_log (dp : String → Option String) (fdt : String → String)
    (env : Env) (idx : JsMap CraftCollectionSchemaProperty) (pos : Nat)
    (item : ZoteroItem) (st : EngineState) :
    (syncStep dp fdt env idx pos item st).log
      = (applyReadingDate fdt env idx
          (buildCraftProperties dp fdt item idx (resolveCitationKey item))
          st).2.log ++ [stepOutcome env pos item st] := by
  simp only [syncStep, stepOutcome]
  cases hn : env.notes pos with
  | error m => simp [recordItemError, appendOutcome]
  | ok bs =>
    cases he : mapGet st.index (zoteroUriOfKey item.key) with
    | some eid =>
      cases hwr : env.write pos with
      | ok wid => simp [appendOutcome]
      | error m => simp [recordItemError, appendOutcome]
    | none =>
      cases hwr : env.write pos with
      | ok wid => simp [appendOutcome]
      | error m => simp [recordItemError, appendOutcome]

theorem syncStep_warnConserve (dp : String → Option String)
    (fdt : String → String) (env : Env)
    (idx : JsMap CraftCollectionSchemaProperty) (pos : Nat) (item : ZoteroItem)
    (st : EngineState) :
    (syncStep dp fdt env idx pos item st).log.countP
        (fun e => decide (e.status = SyncStatus.skipped))
      + (if (syncStep dp fdt env idx pos item st).readingDateWarning
          then 0 else 1)
      = st.log.countP (fun e => decide (e.status = SyncStatus.skipped))
        + (if st.readingDateWarning then 0 else 1) := by
  have hwarn := (syncStep_rdState dp fdt env idx pos item st).2.2
  rw [syncStep_log, List.countP_append, hwarn]
  have hsk : (List.countP (fun e => decide (e.status = SyncStatus.skipped))
      [stepOutcome env pos item st]) = 0 := by
    simp [List.countP_cons, stepOutcome_not_skipped env pos item st]
  rw [hsk, Nat.add_zero]
  exact applyReadingDate_warnConserve fdt env idx _ st

theorem syncRun_warnConserve (dp : String → Option String)
    (fdt : String → String) (env : Env)
    (idx : JsMap CraftCollectionSchemaProperty) (items : List ZoteroItem) :
    ∀ (pos : Nat) (st : EngineState),
      (syncRun dp fdt env idx pos items st).log.countP
          (fun e => decide (e.status = SyncStatus.skipped))
        + (if (syncRun dp fdt env idx pos items st).readingDateWarning
            then 0 else 1)
        = st.log.countP (fun e => decide (e.status = SyncStatus.skipped))
          + (if st.readingDateWarning then 0 else 1) := by
  induction items with
  | nil => intro pos st; rfl
  | cons it rest ih =>
    intro pos st
    rw [syncRun_cons, ih (pos + 1) _]
    exact syncStep_warnConserve dp fdt env idx pos it st

theorem applyReadingDate_memoized (fdt : String → String) (env : Env)
    (idx : JsMap CraftCollectionSchemaProperty) (props : PropMap)
    (st : EngineState) (id₀ : String) (hmemo : st.dailyNoteId = some id₀) :
    ((applyReadingDate fdt env idx props st).2.dailyNoteId = some id₀)
    ∧ ((applyReadingDate fdt env idx props st).2.dailyCalls
        = st.dailyCalls) := by
  unfold applyReadingDate
  dsimp only
  repeat' split
  all_goals simp_all

theorem syncStep_memoized (dp : String → Option String)
    (fdt : String → String) (env : Env)
    (idx : JsMap CraftCollectionSchemaProperty) (pos : Nat) (item : ZoteroItem)
    (st : EngineState) (id₀ : String) (hmemo : st.dailyNoteId = some id₀) :
    ((syncStep dp fdt env idx pos item st).dailyNoteId = some id₀)
    ∧ ((syncStep dp fdt env idx pos item st).dailyCalls = st.dailyCalls) := by
  obtain ⟨h1, h2, _⟩ := syncStep_rdState dp fdt env idx pos item st
  obtain ⟨m1, m2⟩ := applyReadingDate_memoized fdt env idx
    (buildCraftProperties dp fdt item idx (resolveCitationKey item)) st id₀
    hmemo
  exact ⟨h1.trans m1, h2.trans m2⟩

theorem syncRun_memoized (dp : String → Option String)
    (fdt : String → String) (env : Env)
    (idx : JsMap CraftCollectionSchemaProperty) (items : List ZoteroItem) :
    ∀ (pos : Nat) (st : EngineState) (id₀ : String),
      st.dailyNoteId = some id₀ →
      ((syncRun dp fdt env idx pos items st).dailyNoteId = some id₀)
      ∧ ((syncRun dp fdt env idx pos items st).dailyCalls
          = st.dailyCalls) := by
  induction items with
  | nil => intro pos st id₀ hmemo; exact ⟨hmemo, rfl⟩
  | cons it rest ih =>
    intro pos st id₀ hmemo
    obtain ⟨h1, h2⟩ := syncStep_memoized dp fdt env idx pos it st id₀ hmemo
    rw [syncRun_cons]
    obtain ⟨r1, r2⟩ := ih (pos + 1) _ id₀ h1
    exact ⟨r1, r2.trans h2⟩

theorem applyReadingDate_firstOk (fdt : String → String) (env : Env)
    (idx : JsMap CraftCollectionSchemaProperty) (props : PropMap)
    (st : EngineState) (rdProp : CraftCollectionSchemaProperty) (id₀ : String)
    (hrd : getReadingDateProperty idx = some rdProp)
    (hdate : expectsDateType rdProp.type = false)
    (hobj : expectsObjectType rdProp.type = true)
    (hclient : env.hasCraftClient = true)
    (hmemo : st.dailyNoteId = none)
    (hdaily : env.daily st.dailyCalls = .ok id₀) :
    applyReadingDate fdt env idx props st
      = (mapSet props rdProp.key (.vlink id₀ (fdt env.today)),
          { st with dailyNoteId := some id₀, dailyCalls := st.dailyCalls + 1 }) := by
  simp only [applyReadingDate, hrd, hdate, hobj, hclient, hmemo, hdaily,
    Bool.false_or, Bool.not_true, Bool.false_eq_true, if_false]

theorem applyReadingDate_failedCall (fdt : String → String) (env : Env)
    (idx : JsMap CraftCollectionSchemaProperty) (props : PropMap)
    (st : EngineState) (rdProp : CraftCollectionSchemaProperty) (m : String)
    (hrd : getReadingDateProperty idx = some rdProp)
    (hdate : expectsDateType rdProp.type = false)
    (hobj : expectsObjectType rdProp.type = true)
    (hclient : env.hasCraftClient = true)
    (hmemo : st.dailyNoteId = none)
    (hdaily : env.daily st.dailyCalls = .error m) :
    ((applyReadingDate fdt env idx props st).1 = props)
    ∧ ((applyReadingDate fdt env idx props st).2.dailyNoteId = none)
    ∧ ((applyReadingDate fdt env idx props st).2.dailyCalls
        = st.dailyCalls + 1) := by
  simp only [applyReadingDate, hrd, hdate, hobj, hclient, hmemo, hdaily,
    Bool.false_or, Bool.not_true, Bool.false_eq_true, if_false]
  split
  · exact ⟨rfl, rfl, rfl⟩
  · exact ⟨rfl, rfl, rfl⟩

theorem syncRun_memoAfterFirstOk (dp : String → Option String)
    (fdt : String → String) (env : Env)
    (idx : JsMap CraftCollectionSchemaProperty)
    (rdProp : CraftCollectionSchemaProperty)
    (hrd : getReadingDateProperty idx = some rdProp)
    (hdate : expectsDateType rdProp.type = false)
    (hobj : expectsObjectType rdProp.type = true)
    (hclient : env.hasCraftClient = true) :
    ∀ (it : ZoteroItem) (rest : List ZoteroItem) (pos : Nat)
      (st : EngineState) (id₀ : String),
      st.dailyNoteId = none → env.daily st.dailyCalls = .ok id₀ →
      ((syncRun dp fdt env idx pos (it :: rest) st).dailyNoteId = some id₀)
      ∧ ((syncRun dp fdt env idx pos (it :: rest) st).dailyCalls
          = st.dailyCalls + 1) := by
  intro it rest pos st id₀ hmemo hdaily
  obtain ⟨h1, h2, _⟩ := syncStep_rdState dp fdt env idx pos it st
  have hfirst := applyReadingDate_firstOk fdt env idx
    (buildCraftProperties dp fdt it idx (resolveCitationKey it)) st rdProp id₀
    hrd hdate hobj hclient hmemo hdaily
  rw [hfirst] at h1 h2
  rw [syncRun_cons]
  obtain ⟨r1, r2⟩ := syncRun_memoized dp fdt env idx rest (pos + 1)
    (syncStep dp fdt env idx pos it st) id₀ h1
  exact ⟨r1, by rw [r2, h2]⟩

theorem syncRun_allDailyFail (dp : String → Option String)
    (fdt : String → String) (env : Env)
    (idx : JsMap CraftCollectionSchemaProperty)
    (rdProp : CraftCollectionSchemaProperty)
    (hrd : getReadingDateProperty idx = some rdProp)
    (hdate : expectsDateType rdProp.type = false)
    (hobj : expectsObjectType rdProp.type = true)
    (hclient : env.hasCraftClient = true)
    (hfail : ∀ n, ∃ m, env.daily n = .error m)
    (items : List ZoteroItem) :
    ∀ (pos : Nat) (st : EngineState),
      st.dailyNoteId = none →
      ((syncRun dp fdt env idx pos items st).dailyNoteId = none)
      ∧ ((syncRun dp fdt env idx pos items st).dailyCalls
          = st.dailyCalls + items.length) := by
  induction items with
  | nil => intro pos st hmemo; exact ⟨hmemo, rfl⟩
  | cons it rest ih =>
    intro pos st hmemo
    obtain ⟨m, hm⟩ := hfail st.dailyCalls
    obtain ⟨h1, h2, _⟩ := syncStep_rdState dp fdt env idx pos it st
    obtain ⟨_, f2, f3⟩ := applyReadingDate_failedCall fdt env idx
      (buildCraftProperties dp fdt it idx (resolveCitationKey it)) st rdProp m
      hrd hdate hobj hclient hmemo hm
    rw [syncRun_cons]
    obtain ⟨r1, r2⟩ := ih (pos + 1) (syncStep dp fdt env idx pos it st)
      (h1.trans f2)
    refine ⟨r1, ?_⟩
    rw [r2, h2, f3]
    simp [List.length_cons]
    omega


/-! ## Claim C7: reading-date warnings, memoization and retries -/

/-- C7 (amended): across any run the number of `skipped` (reading-date
warning) log entries plus the unfired-warning budget is conserved — so a run
starting with the warning latch clear logs at most one warning; for an
object/link-like reading-date field with a Craft client, a successful first
resolution is memoized, so any non-empty run issues exactly one remote
daily-note call; when every resolution attempt fails, the daily-note id stays
unresolved and the engine re-attempts once per item (one extra remote call per
item), rather than latching an unavailable state. -/
theorem readingDateWarnOnceAndMemoize :
    (∀ (dp : String → Option String) (fdt : String → String) (env : Env)
      (idx : JsMap CraftCollectionSchemaProperty) (pos : Nat)
      (items : List ZoteroItem) (st : EngineState),
      (syncRun dp fdt env idx pos items st).log.countP
          (fun e => decide (e.status = SyncStatus.skipped))
        + (if (syncRun dp fdt env idx pos items st).readingDateWarning
            then 0 else 1)
        = st.log.countP (fun e => decide (e.status = SyncStatus.skipped))
          + (if st.readingDateWarning then 0 else 1))
    ∧ (∀ (dp : String → Option String) (fdt : String → String) (env : Env)
        (idx : JsMap CraftCollectionSchemaProperty)
        (rdProp : CraftCollectionSchemaProperty),
        getReadingDateProperty idx = some rdProp →
        expectsDateType rdProp.type = false →
        expectsObjectType rdProp.type = true →
        env.hasCraftClient = true →
        (∀ (it : ZoteroItem) (rest : List ZoteroItem) (pos : Nat)
          (st : EngineState) (id₀ : String),
          st.dailyNoteId = none → env.daily st.dailyCalls = .ok id₀ →
          ((syncRun dp fdt env idx pos (it :: rest) st).dailyNoteId
            = some id₀)
          ∧ ((syncRun dp fdt env idx pos (it :: rest) st).dailyCalls
            = st.dailyCalls + 1))
        ∧ ((∀ n, ∃ m, env.daily n = .error m) →
          ∀ (items : List ZoteroItem) (pos : Nat) (st : EngineState),
            st.dailyNoteId = none →
            ((syncRun dp fdt env idx pos items st).dailyNoteId = none)
            ∧ ((syncRun dp fdt env idx pos items st).dailyCalls
              = st.dailyCalls + items.length))) := by
  refine ⟨?_, ?_⟩
  · intro dp fdt env idx pos items st
    exact syncRun_warnConserve dp fdt env idx items pos st
  · intro dp fdt env idx rdProp hrd hdate hobj hclient
    refine ⟨?_, ?_⟩
    · intro it rest pos st id₀ hmemo hdaily
      exact syncRun_memoAfterFirstOk dp fdt env idx rdProp hrd hdate hobj
        hclient it rest pos st id₀ hmemo hdaily
    · intro hfail items pos st hmemo
      exact syncRun_allDailyFail dp fdt env idx rdProp hrd hdate hobj hclient
        hfail items pos st hmemo

/-- Witness for C7 (amended): the two-item run against the link-typed
reading-date schema with an always-succeeding remote resolves the daily note
exactly once. -/
theorem readingDateWarnOnceAndMemoize_witness :
    ((syncRun dpNone fdtId envAllOk sampleRdIndex 0 sampleTwoItems
        ({} : EngineState)).dailyNoteId = some "dn")
    ∧ ((syncRun dpNone fdtId envAllOk sampleRdIndex 0 sampleTwoItems
        ({} : EngineState)).dailyCalls = 1) :=
  (readingDateWarnOnceAndMemoize.2 dpNone fdtId envAllOk sampleRdIndex
    sampleReadingDateProp (by decide) (by decide) (by decide) rfl).1
    sampleItemA [sampleItemB] 0 {} "dn" rfl rfl

/-- Counterexample for C7 as stated: with the first daily-note call failing
and the second succeeding, the run makes a second remote call and the second
item's write carries the reading-date link — the resolver does not transition
permanently to an unavailable state after the first failure (only the warning
is latched: exactly one skipped entry is logged). -/
theorem readingDate_retryAfterFailure :
    ((syncRun dpNone fdtId envDailyFlaky sampleRdIndex 0 sampleTwoItems
        ({} : EngineState)).dailyCalls = 2)
    ∧ ((syncRun dpNone fdtId envDailyFlaky sampleRdIndex 0 sampleTwoItems
        ({} : EngineState)).writes.map (fun w => mapGet w.2 "rd")
      = [none, some (.vlink "note1" (fdtId "2026-01-01"))])
    ∧ ((syncRun dpNone fdtId envDailyFlaky sampleRdIndex 0 sampleTwoItems
        ({} : EngineState)).log.countP
          (fun e => decide (e.status = SyncStatus.skipped)) = 1) := by
  refine ⟨by decide, by decide, by decide⟩

end Craftero
